import Mathlib

/-
Verification development for the centipede repository.

The classification engine lives in src/lib/centipede/Crawler/Fs/Path.py
(class `Path`), and the versioned publish protocol in
src/lib/ingestor/Task/Version/CreateVersion.py (class `CreateVersion`).
Python dictionaries (and `collections.OrderedDict`) are modelled as
association lists where assignment to an existing key keeps its ordinal
slot and assignment to a fresh key appends at the end; values attached to
nodes and metadata dictionaries are modelled by the inductive `JValue`.
-/

namespace Centipede

/-- Heterogeneous scalar values stored in node variables, tags and
metadata dictionaries (JSON-representable scalars). -/
inductive JValue where
  | str (s : String)
  | num (z : Int)
  | boolean (b : Bool)
deriving DecidableEq, Repr

variable {κ : Type} [DecidableEq κ]

/-- Python dict assignment `d[k] = v`: an existing key keeps its ordinal
slot with the value replaced; a fresh key is appended at the end. -/
def odSet (k : κ) (v : α) : List (κ × α) → List (κ × α)
  | [] => [(k, v)]
  | (k', v') :: rest => if k' = k then (k, v) :: rest else (k', v') :: odSet k v rest

/-- Python dict lookup `d[k]` (None when the key is absent). -/
def odGet (k : κ) : List (κ × α) → Option α
  | [] => none
  | (k', v') :: rest => if k' = k then some v' else odGet k rest

/-- Key sequence of a dict, in insertion order (Python `d.keys()`). -/
def odKeys (d : List (κ × α)) : List κ :=
  d.map Prod.fst

/-- Python os.path.basename for posix paths: the substring after the
last slash (empty when the path ends in a slash). -/
def baseNameChars (cs : List Char) : List Char :=
  (cs.reverse.takeWhile (fun c => c ≠ '/')).reverse

def pyBaseName (s : String) : String :=
  String.mk (baseNameChars s.data)

/-- Python os.path.dirname for posix paths: everything before the last
slash; a head made only of slashes is kept as is, otherwise trailing
slashes are stripped (posixpath.dirname). -/
def dirnameChars (cs : List Char) : List Char :=
  let head := (cs.reverse.dropWhile (fun c => c ≠ '/')).reverse
  if head ≠ [] ∧ head.any (fun c => c ≠ '/') then
    (head.reverse.dropWhile (fun c => c = '/')).reverse
  else head

def pyDirname (s : String) : String :=
  String.mk (dirnameChars s.data)

/-- Python os.path.splitext applied to a base name: leading dots never
start an extension; the extension begins at the last remaining dot. -/
def splitExtChars (bn : List Char) : List Char × List Char :=
  let lead := bn.takeWhile (fun c => c = '.')
  let rest := bn.drop lead.length
  if rest.contains '.' then
    let tail := rest.reverse.takeWhile (fun c => c ≠ '.')
    let root := rest.take (rest.length - (tail.length + 1))
    (lead ++ root, '.' :: tail.reverse)
  else (bn, [])

/-- Component before the extension, os.path.splitext(...)[0] on a base
name. -/
def pySplitExtRoot (s : String) : String :=
  String.mk (splitExtChars (baseNameChars s.data)).1

/-- Extension without the leading dot, os.path.splitext(...)[-1][1:]. -/
def pyExtNoDot (s : String) : String :=
  String.mk (((splitExtChars (baseNameChars s.data)).2).drop 1)

/-- Python os.path.join for posix paths, second component a plain name
as used by the sources (an absolute second component replaces the head). -/
def pyJoin (a b : String) : String :=
  if b.data.head? = some '/' then b
  else if a = "" then b
  else if a.data.getLast? = some '/' then a ++ b
  else a ++ "/" ++ b

/-- Python str.startswith. -/
def pyStartsWith (s pre : String) : Bool :=
  pre.data.isPrefixOf s.data

/-- Python slicing s[n:]. -/
def pySlice (s : String) (n : Nat) : String :=
  String.mk (s.data.drop n)

/-- Python int() on a decimal digit string; None models the ValueError
raise on anything else. -/
def parsePyInt (s : String) : Option Int :=
  if s.data ≠ [] ∧ s.data.all (fun c => c.isDigit) then
    some (Int.ofNat (s.data.foldl (fun acc c => acc * 10 + (c.toNat - 48)) 0))
  else none

/-- Modelled from the spec: the PathHolder class is not under src; §3
defines it as an immutable value derived once from the literal path
string, carrying the path, the base name, the extension and a directory
flag. -/
structure PathHolder where
  path : String
  isDirectory : Bool
deriving DecidableEq, Repr

def PathHolder.baseName (ph : PathHolder) : String := pyBaseName ph.path

def PathHolder.ext (ph : PathHolder) : String := pyExtNoDot ph.path

/-- Modelled from the spec: the Crawler base class is not under src; §3
and §4.1 define a node as insertion-ordered variable storage with a
context-variable subset, an independent tag namespace, a parent
back-reference and owned children. The concrete Python class of the node
is modelled by its identifier together with the identifiers of all of
its superclasses. -/
structure NodeData where
  vars : List (String × JValue)
  contextVars : List String
  tags : List (String × JValue)
  classId : String
  classAncestors : List String
  hasParent : Bool
deriving DecidableEq, Repr

inductive Node where
  | mk (data : NodeData) (children : List Node)

mutual

def nodeDecEq : (a b : Node) → Decidable (a = b)
  | .mk d cs, .mk d' cs' =>
    match decEq d d', nodeListDecEq cs cs' with
    | isTrue h1, isTrue h2 => isTrue (by rw [h1, h2])
    | isFalse h1, _ => isFalse (fun h => by cases h; exact h1 rfl)
    | _, isFalse h2 => isFalse (fun h => by cases h; exact h2 rfl)

def nodeListDecEq : (a b : List Node) → Decidable (a = b)
  | [], [] => isTrue rfl
  | [], _ :: _ => isFalse (fun h => by cases h)
  | _ :: _, [] => isFalse (fun h => by cases h)
  | x :: xs, y :: ys =>
    match nodeDecEq x y, nodeListDecEq xs ys with
    | isTrue h1, isTrue h2 => isTrue (by rw [h1, h2])
    | isFalse h1, _ => isFalse (fun h => by cases h; exact h1 rfl)
    | _, isFalse h2 => isFalse (fun h => by cases h; exact h2 rfl)

end

instance : DecidableEq Node := nodeDecEq

def Node.data : Node → NodeData
  | .mk d _ => d

def Node.children : Node → List Node
  | .mk _ c => c

/-- Modelled from the spec: Crawler.setVar (§4.1) inserts or overwrites
the variable; when isContextVar is true the name is added to the
context-variable set. -/
def NodeData.setVar (d : NodeData) (name : String) (v : JValue)
    (isContextVar : Bool) : NodeData :=
  { d with
    vars := odSet name v d.vars,
    contextVars :=
      if isContextVar && !(d.contextVars.contains name)
      then d.contextVars ++ [name] else d.contextVars }

/-- Modelled from the spec: Crawler.setTag (§4.1), an independent
namespace with the same contract shape as setVar. -/
def NodeData.setTag (d : NodeData) (name : String) (v : JValue) : NodeData :=
  { d with tags := odSet name v d.tags }

def Node.setVar : Node → String → JValue → Bool → Node
  | .mk d cs, k, v, ctx => .mk (d.setVar k v ctx) cs

def Node.setTag : Node → String → JValue → Node
  | .mk d cs, k, v => .mk (d.setTag k v) cs

def Node.var (n : Node) (k : String) : Option JValue := odGet k n.data.vars

def Node.varNames (n : Node) : List String := odKeys n.data.vars

def Node.contextVarNames (n : Node) : List String := n.data.contextVars

def Node.tag (n : Node) (k : String) : Option JValue := odGet k n.data.tags

def Node.tagNames (n : Node) : List String := odKeys n.data.tags

def Node.isLeaf (n : Node) : Bool := n.children.isEmpty

def Node.classId (n : Node) : String := n.data.classId

def Node.classAncestors (n : Node) : List String := n.data.classAncestors

/-- Variable initialization performed by Path.__init__ (Path.py lines
26-42): filePath, ext, baseName, name and sourceDirectory are derived
from the path holder; the Crawler base constructor (not under src, §4.1)
contributes empty variable, context and tag storage and the parent
back-reference. -/
def pathInitData (ph : PathHolder) (hasParent : Bool) (classId : String)
    (classAncestors : List String) : NodeData :=
  let d : NodeData :=
    { vars := [], contextVars := [], tags := [],
      classId := classId, classAncestors := classAncestors,
      hasParent := hasParent }
  let d := d.setVar "filePath" (JValue.str ph.path) false
  let d := d.setVar "ext" (JValue.str ph.ext) false
  let d := d.setVar "baseName" (JValue.str ph.baseName) false
  let d := d.setVar "name" (JValue.str (pySplitExtRoot ph.baseName)) false
  let d := if (odKeys d.vars).contains "sourceDirectory" then d
           else d.setVar "sourceDirectory"
             (JValue.str (if ph.isDirectory then ph.path else pyDirname ph.path))
             false
  d

/-- A registered recognizer type: the class identity and ancestry model
the Python class object and its superclass chain, test models the
classmethod Path.test of the concrete class, and the extra variable and
tag initialization models a concrete subclass constructor body running
after Path.__init__ (see data/examples DpxClientPlate.py for such a
body). -/
structure CrawlerClass where
  classId : String
  ancestors : List String
  test : PathHolder → Option Node → Bool
  extraVars : PathHolder → List (String × JValue)
  extraTags : PathHolder → List (String × JValue)

/-- The Python constructor call crawlerClass(pathHolder, parentCrawler):
Path.__init__ followed by the subclass constructor body; a freshly
constructed node owns no children. -/
def CrawlerClass.construct (c : CrawlerClass) (ph : PathHolder)
    (parent : Option Node) : Node :=
  let d0 := pathInitData ph parent.isSome c.classId c.ancestors
  let d1 := (c.extraVars ph).foldl (fun d kv => d.setVar kv.1 kv.2 false) d0
  let d2 := (c.extraTags ph).foldl (fun d kv => d.setTag kv.1 kv.2) d1
  Node.mk d2 []

/-- Python issubclass on modelled classes: c is a subclass of b when it
is b itself or b appears among its ancestors. -/
def isSubclassOf (c b : CrawlerClass) : Bool :=
  c.classId == b.classId || c.ancestors.contains b.classId

/-- Python isinstance of a node against one class. -/
def Node.isInstanceOf (n : Node) (b : CrawlerClass) : Bool :=
  n.classId == b.classId || n.classAncestors.contains b.classId

/-- The ordered registry Path.__registeredTypes (an OrderedDict). -/
abbrev Registry := List (String × CrawlerClass)

namespace Path

/-- Path.register (Path.py lines 121-134): assignment into the ordered
registry; an overridden name keeps its ordinal slot, a fresh name is
appended. -/
def register (reg : Registry) (name : String)
    (crawlerClass : CrawlerClass) : Registry :=
  odSet name crawlerClass reg

/-- Path.registeredNames (Path.py lines 136-141). -/
def registeredNames (reg : Registry) : List String := odKeys reg

/-- An argument accepted by the filterTypes parameter of Path.glob and
by Path.registeredSubclasses: either a registered type name or a class. -/
inductive ClassRef where
  | byName (name : String)
  | byClass (cls : CrawlerClass)

/-- Path.__baseClass (Path.py lines 167-178): a string resolves through
the registry (None models the failed assertion on an unregistered name),
a class is used as is. -/
def baseClassOf (reg : Registry) : ClassRef → Option CrawlerClass
  | .byName s => odGet s reg
  | .byClass c => some c

/-- Path.registeredSubclasses (Path.py lines 143-153): the registered
classes compatible with the given base. The Python set built there only
removes duplicate class objects before the tuple is handed to
isinstance, which is insensitive to order and multiplicity, so the plain
filtered list is an equivalent model. -/
def registeredSubclasses (reg : Registry) (ref : ClassRef) :
    Option (List CrawlerClass) :=
  (baseClassOf reg ref).map
    (fun b => (reg.map Prod.snd).filter (fun c => isSubclassOf c b))

/-- Errors raised by Path.create: TestCrawlerError, CreateCrawlerError
and the failing assert on exhaustion (the spec §4.2 names the latter
NoMatchingClassifierError). -/
inductive CreateError where
  | testError (name path : String)
  | createError (name path : String)
  | noMatch (path : String)
deriving DecidableEq, Repr

/-- Path.create (Path.py lines 180-222): registered types are tried from
the latest registration to the first; the first passing test constructs
the node and stamps the type variable; exhaustion reaches the failing
assert. Test predicates and constructors are modelled as total, so the
raising branches of lines 191-213 are never taken here. -/
def createAux (regRev : List (String × CrawlerClass)) (ph : PathHolder)
    (parent : Option Node) : Except CreateError Node :=
  match regRev with
  | [] => .error (.noMatch ph.path)
  | (name, c) :: rest =>
    if c.test ph parent then
      .ok ((c.construct ph parent).setVar "type" (JValue.str name) false)
    else createAux rest ph parent

def create (reg : Registry) (ph : PathHolder)
    (parent : Option Node := none) : Except CreateError Node :=
  createAux reg.reverse ph parent

mutual

/-- Path.__collectCrawlers (Path.py lines 274-286): the node itself
followed by the recursive collection of each child in order (the isLeaf
guard in the source only skips an empty loop). -/
def collectCrawlers : Node → List Node
  | .mk d cs => Node.mk d cs :: collectChildren cs

/-- Recursive collection over a child list, in enumeration order. -/
def collectChildren : List Node → List Node
  | [] => []
  | c :: rest => collectCrawlers c ++ collectChildren rest

end

/-- The memo Path.__globCache, None before the first computation. -/
structure GlobState where
  cache : Option (List Node)

/-- Insertion into the model of the Python set of nodes: node identity
is structural equality here, faithful when the collected nodes are
pairwise distinct (distinct live objects). -/
def insertUnique (acc : List Node) (x : Node) : List Node :=
  if acc.contains x then acc else acc ++ [x]

/-- Python set.update with the iteration order of the updated set
abstracted as insertion order (CPython iterates a set of objects in an
arbitrary, hash-determined order). -/
def setUpdate (acc : List Node) (xs : List Node) : List Node :=
  xs.foldl insertUnique acc

/-- The filtered branch of Path.glob (Path.py lines 94-100): a set is
filled with the matching crawlers of each filter type in turn and then
listed; None models the assertion failure on an unregistered name. -/
def globFilter (reg : Registry) (cache : List Node)
    (filterTypes : List ClassRef) : Option (List Node) :=
  filterTypes.foldl (fun acc ft =>
    match acc, registeredSubclasses reg ft with
    | some l, some subs =>
      some (setUpdate l (cache.filter (fun x => subs.any (fun c => x.isInstanceOf c))))
    | _, _ => none) (some [])

/-- Path.glob (Path.py lines 81-100): the cache is recomputed when empty
or when useCache is false; with no filter types the cached list itself is
returned, otherwise the set-filtered list. collectNow stands for the
recomputation Path.__collectCrawlers(self) performed at call time. -/
def glob (reg : Registry) (collectNow : Unit → List Node) (st : GlobState)
    (filterTypes : List ClassRef) (useCache : Bool) :
    Option (List Node) × GlobState :=
  let cache :=
    match st.cache, useCache with
    | some c, true => c
    | _, _ => collectNow ()
  let st' : GlobState := ⟨some cache⟩
  if filterTypes.isEmpty then (some cache, st')
  else (globFilter reg cache filterTypes, st')

/-- The dictionary serialized by Path.toJson (Path.py lines 56-79); the
textual json.dumps/json.loads layer is the identity on these contents
and is elided. -/
structure SerializedCrawler where
  vars : List (String × JValue)
  contextVarNames : List String
  tags : List (String × JValue)
deriving DecidableEq, Repr

/-- Path.toJson (Path.py lines 56-79): every variable, context variable
name and tag is emitted in storage order. -/
def toJson (n : Node) : SerializedCrawler :=
  { vars := n.varNames.map (fun k => (k, (n.var k).getD (JValue.str ""))),
    contextVarNames := n.contextVarNames,
    tags := n.tagNames.map (fun k => (k, (n.tag k).getD (JValue.str ""))) }

/-- Path.createFromJson (Path.py lines 224-247): the type variable picks
the registered class, the filePath variable rebuilds the path holder
(fsIsDir models the directory probe of the PathHolder constructor), the
constructor runs with no parent, then every serialized variable is set
with its context flag and every tag is set. None models the KeyError
raises on missing type, filePath or registry entry. -/
def createFromJson (reg : Registry) (fsIsDir : String → Bool)
    (c : SerializedCrawler) : Option Node :=
  match odGet "type" c.vars, odGet "filePath" c.vars with
  | some (JValue.str t), some (JValue.str fp) =>
    match odGet t reg with
    | some cls =>
      let crawler := cls.construct (PathHolder.mk fp (fsIsDir fp)) none
      let crawler := c.vars.foldl
        (fun n kv => n.setVar kv.1 kv.2 (c.contextVarNames.contains kv.1)) crawler
      let crawler := c.tags.foldl (fun n kv => n.setTag kv.1 kv.2) crawler
      some crawler
    | none => none
  | _, _ => none

end Path

namespace CreateVersion

/-- A Python metadata dictionary. -/
abbrev Dict := List (String × JValue)

/-- A heap of live dictionary objects: Python dicts are mutable and
shared by reference, so the task state stores references and dict(...)
copies allocate fresh ones. -/
abbrev Heap := List (Nat × Dict)

/-- The dictionary object behind a reference (the empty dictionary for
a dangling reference, which never arises in the settled claims). -/
def refGetD (h : Heap) (r : Nat) : Dict :=
  (odGet r h).getD []

/-- Python truthiness of an optional scalar, as used by
`if self.assetName():`. -/
def jTruthy : Option JValue → Bool
  | none => false
  | some (.str s) => s ≠ ""
  | some (.num z) => z ≠ 0
  | some (.boolean b) => b

/-- State of a CreateVersion task (CreateVersion.py lines 18-28) plus
the dictionary heap. pathCrawlers and filePathOf model the Task base
class bindings (spec §4.4): the bound input nodes and the target-path
template resolution, an external collaborator treated as an opaque
deterministic function. -/
structure CVTask where
  pathCrawlers : List Node
  filePathOf : Node → String
  files : List (String × Nat)
  heap : Heap
  nextRef : Nat
  info : Dict
  loaded : Bool
  assetNameV : Option JValue
  variantV : Option JValue
  versionPathV : String
  dataPathV : String
  configPathV : Option JValue
  versionV : Option Int

/-- A freshly constructed task (CreateVersion.__init__, lines 18-28)
bound to its input nodes; the version attributes start unset. -/
def CVTask.init (crawlers : List Node) (fpOf : Node → String)
    (heap : Heap) (nextRef : Nat) : CVTask :=
  { pathCrawlers := crawlers, filePathOf := fpOf, files := [],
    heap := heap, nextRef := nextRef, info := [], loaded := false,
    assetNameV := none, variantV := none, versionPathV := "",
    dataPathV := "", configPathV := none, versionV := none }

/-- CreateVersion.__loadPublishData (lines 198-223): resolved once, from
the first bound node only; the version folder name loses its first
character and the remainder is parsed as an integer (None models the
int() raise); a missing configPath variable is modelled as None instead
of the UndefinedVariableError raise. -/
def loadPublishData (t : CVTask) : CVTask :=
  match t.loaded, t.pathCrawlers with
  | false, pc :: _ =>
    let hasAsset := (pc.varNames).contains "assetName"
    let vp := pyDirname (t.filePathOf pc)
    { t with
      loaded := true,
      assetNameV := if hasAsset then pc.var "assetName" else t.assetNameV,
      variantV := if hasAsset then pc.var "variant" else t.variantV,
      versionPathV := vp,
      dataPathV := pyJoin vp "data",
      configPathV := pc.var "configPath",
      versionV := parsePyInt (pySlice (pyBaseName vp) 1) }
  | _, _ => t

/-- CreateVersion.version (lines 30-36). -/
def version (t : CVTask) : Option Int := (loadPublishData t).versionV

/-- CreateVersion.variant (lines 38-44): the source returns
self.__assetName from this accessor. -/
def variant (t : CVTask) : Option JValue := (loadPublishData t).assetNameV

/-- CreateVersion.assetName (lines 46-52). -/
def assetName (t : CVTask) : Option JValue := (loadPublishData t).assetNameV

/-- CreateVersion.versionPath (lines 54-60). -/
def versionPath (t : CVTask) : String := (loadPublishData t).versionPathV

/-- CreateVersion.dataPath (lines 62-68). -/
def dataPath (t : CVTask) : String := (loadPublishData t).dataPathV

/-- CreateVersion.configPath (lines 70-76). -/
def configPath (t : CVTask) : Option JValue := (loadPublishData t).configPathV

inductive AddFileErr where
  | fileNotUnderDataDirectory
  | statError
deriving DecidableEq, Repr

/-- CreateVersion.addFile (lines 78-110). fsSize is the os.stat size
oracle (None models the OSError raise on a missing path); the caller
metadata arrives as a heap reference or None; dict(metadata) allocates a
fresh copy which is then populated and stored in __files. The size entry
is always overwritten from the stat result; the type entry only when
absent. -/
def addFile (fsSize : String → Option Nat) (t : CVTask) (filePath : String)
    (metadataRef : Option Nat) : Except AddFileErr CVTask :=
  let t1 := loadPublishData t
  if !(pyStartsWith filePath (t1.dataPathV ++ "/")) then
    .error .fileNotUnderDataDirectory
  else
    let md0 := match metadataRef with
      | none => []
      | some r => refGetD t1.heap r
    match fsSize filePath with
    | none => .error .statError
    | some sz =>
      let md1 := odSet "size" (JValue.num (Int.ofNat sz)) md0
      let md2 := if (odGet "type" md1).isSome then md1
                 else odSet "type" (JValue.str (pyExtNoDot filePath)) md1
      let r' := t1.nextRef
      .ok { t1 with
            heap := t1.heap ++ [(r', md2)],
            nextRef := t1.nextRef + 1,
            files := odSet filePath r' t1.files }

/-- CreateVersion.files (lines 112-116). -/
def filesList (t : CVTask) : List String := odKeys t.files

inductive MetaErr where
  | metadataNotFound
deriving DecidableEq, Repr

/-- CreateVersion.fileMetadata (lines 118-128): a copy of the stored
dictionary is returned as a freshly allocated reference, so the caller
never aliases recorded state. -/
def fileMetadata (t : CVTask) (filePath : String) :
    Except MetaErr (CVTask × Nat) :=
  match odGet filePath t.files with
  | some r =>
    let r' := t.nextRef
    .ok ({ t with heap := t.heap ++ [(r', refGetD t.heap r)],
                  nextRef := t.nextRef + 1 }, r')
  | none => .error .metadataNotFound

/-- A caller mutating a dictionary object in place: d[k] = v on the
object behind the reference. -/
def mutateRef (t : CVTask) (r : Nat) (k : String) (v : JValue) : CVTask :=
  { t with heap := odSet r (odSet k v (refGetD t.heap r)) t.heap }

/-- The metadata dictionary recorded in __files for a path, read in
place without copying (used to state frame properties). -/
def recordedDict (t : CVTask) (filePath : String) : Option Dict :=
  (odGet filePath t.files).map (refGetD t.heap)

/-- A field of the metadata recorded for a path, read in place. -/
def recordedVal (t : CVTask) (fp k : String) : Option JValue :=
  (recordedDict t fp).bind (odGet k)

/-- CreateVersion.addInfo (lines 130-136). -/
def addInfo (t : CVTask) (k : String) (v : JValue) : CVTask :=
  { t with info := odSet k v t.info }

/-- Sum of the size entries of all recorded files (the loop of
CreateVersion.__writeInfo lines 160-162); None models the raise when
some entry lacks a numeric size. -/
def totalSizeOf (t : CVTask) : Option Int :=
  t.files.foldl (fun acc pr =>
    match acc, odGet "size" (refGetD t.heap pr.2) with
    | some s, some (JValue.num z) => some (s + z)
    | _, _ => none) (some 0)

/-- The dictionary written to info.json by CreateVersion.__writeInfo
(lines 156-174); the user name and elapsed time come from the process
environment and the clock and are passed in; None models a raise
(missing size entry or unparsable version folder name). json.dump with
sort_keys only affects the textual layout, not the mapping. When the
asset name is truthy the variant entry receives self.variant(), which
the source resolves to the asset name. -/
def writeInfoDict (t : CVTask) (user : String) (elapsed : Int) :
    Option Dict :=
  match totalSizeOf t, version t with
  | some total, some v =>
    let i := t.info
    let i := odSet "size" (JValue.num total) i
    let i := odSet "version" (JValue.num v) i
    let i := odSet "user" (JValue.str user) i
    let i := odSet "totalTime" (JValue.num elapsed) i
    let i := if jTruthy (assetName t) then
        odSet "variant" ((variant t).getD (JValue.str ""))
          (odSet "assetName" ((assetName t).getD (JValue.str "")) i)
      else i
    some i
  | _, _ => none

/-- The manifest dictionary written to data.json by
CreateVersion.__writeData (lines 184-196): each recorded file is keyed
by its path with the first len(versionPath)+1 characters removed. -/
def writeDataDict (t : CVTask) : List (String × Dict) :=
  t.files.foldl (fun fd pr =>
    odSet (pySlice pr.1 ((versionPath t).length + 1)) (refGetD t.heap pr.2) fd) []

end CreateVersion

/-! Claim theorems and their witnesses. -/

/-- A minimal always-matching recognizer class used in concrete
instances. -/
def witCls (id : String) : CrawlerClass :=
  { classId := id, ancestors := [], test := fun _ _ => true,
    extraVars := fun _ => [], extraTags := fun _ => [] }

/-- A never-matching recognizer class used in concrete instances. -/
def witClsFalse : CrawlerClass :=
  { classId := "F", ancestors := [], test := fun _ _ => false,
    extraVars := fun _ => [], extraTags := fun _ => [] }

/-- A concrete path holder used in concrete instances. -/
def witPh : PathHolder := ⟨"/a/b.txt", false⟩

/-- A one-node enumeration outcome used by the C6 witness. -/
def witLeafNode : Node :=
  Node.mk { vars := [("filePath", JValue.str "/r/x")], contextVars := [],
            tags := [], classId := "F", classAncestors := [],
            hasParent := false } []

/-- Enumeration function of the C6 witness: the filesystem state is a
boolean and the two states enumerate different collections. -/
def witCollect : Bool → List Node :=
  fun b => if b then [witLeafNode] else []

/-- Input node of the C9 evaluation: assetName heroA and variant red. -/
def witAssetNode : Node :=
  Node.mk { vars := [("assetName", JValue.str "heroA"),
                     ("variant", JValue.str "red"),
                     ("configPath", JValue.str "/cfg")],
            contextVars := [], tags := [], classId := "Path",
            classAncestors := [], hasParent := false } []

/-- Task of the C9 evaluation, bound to one input node whose target path
resolves under a version folder named v002. -/
def witAssetTask : CreateVersion.CVTask :=
  CreateVersion.CVTask.init [witAssetNode] (fun _ => "/job/v002/info.json") [] 0

/-- Input node and task of the C8 concrete instances: the caller
supplies a metadata dictionary that already carries size 5 while the
file on disk has size 7. -/
def witPlainNode : Node :=
  Node.mk { vars := [], contextVars := [], tags := [], classId := "Path",
            classAncestors := [], hasParent := false } []

def witMetaTask : CreateVersion.CVTask :=
  CreateVersion.CVTask.init [witPlainNode] (fun _ => "/job/v001/info.json")
    [(0, [("size", JValue.num 5)])] 1

/-- The task produced by the C8 witness call. -/
def witMetaTaskAfter : CreateVersion.CVTask :=
  match CreateVersion.addFile (fun _ => some 7) witMetaTask
      "/job/v001/data/img.dpx" (some 0) with
  | .ok t => t
  | .error _ => witMetaTask

/-- Task of the C10 witness: one recorded file whose metadata lives
behind reference 0. -/
def witCopyTask : CreateVersion.CVTask :=
  { CreateVersion.CVTask.init [witPlainNode] (fun _ => "/job/v001/info.json")
      [(0, [("size", JValue.num 3)])] 1 with
    files := [("/job/v001/data/img.dpx", 0)] }

/-- Input node and task of the C4 witness: one recorded file of size
1024 under a version directory named v007. -/
def witVersionNode : Node :=
  Node.mk { vars := [("configPath", JValue.str "/cfg")], contextVars := [],
            tags := [], classId := "Path", classAncestors := [],
            hasParent := false } []

def witVersionTask : CreateVersion.CVTask :=
  { CreateVersion.CVTask.init [witVersionNode] (fun _ => "/x/v007/info.json")
      [(0, [("size", JValue.num 1024), ("type", JValue.str "dpx")])] 1 with
    files := [("/x/v007/data/img.dpx", 0)] }

/-- Coherence of a node's modelled class with the registry: some
registered entry is exactly the node's class; any registered entry
sharing the node's class id has the node's ancestor list (class ids are
unique); and the node's ancestor list is transitively closed over the
registry, as Python method resolution orders are. -/
def classWellFormed (reg : Registry) (x : Node) : Prop :=
  (∃ p ∈ reg, p.2.classId = x.classId ∧ p.2.ancestors = x.classAncestors) ∧
  (∀ p ∈ reg, p.2.classId = x.classId → p.2.ancestors = x.classAncestors) ∧
  (∀ p ∈ reg, p.2.classId ∈ x.classAncestors →
    ∀ a ∈ p.2.ancestors, a ∈ x.classAncestors)

/-- Recognizer classes of the C5 concrete instances: a root directory
class and two unrelated leaf classes. -/
def clsRootDir : CrawlerClass :=
  { classId := "R", ancestors := [], test := fun _ _ => true,
    extraVars := fun _ => [], extraTags := fun _ => [] }

def clsT1 : CrawlerClass :=
  { classId := "T1", ancestors := [], test := fun _ _ => true,
    extraVars := fun _ => [], extraTags := fun _ => [] }

def clsT2 : CrawlerClass :=
  { classId := "T2", ancestors := [], test := fun _ _ => true,
    extraVars := fun _ => [], extraTags := fun _ => [] }

def regFilter : Registry := [("R", clsRootDir), ("T1", clsT1), ("T2", clsT2)]

/-- A leaf node of the given class over the given path. -/
def mkFilterLeaf (cid fp : String) : Node :=
  Node.mk { vars := [("filePath", JValue.str fp)], contextVars := [],
            tags := [], classId := cid, classAncestors := [],
            hasParent := true } []

def nodeT1a : Node := mkFilterLeaf "T1" "/r/a"

def nodeT2b : Node := mkFilterLeaf "T2" "/r/b"

def nodeT1c : Node := mkFilterLeaf "T1" "/r/c"

def rootFilter : Node :=
  Node.mk { vars := [("filePath", JValue.str "/r")], contextVars := [],
            tags := [], classId := "R", classAncestors := [],
            hasParent := false } [nodeT1a, nodeT2b, nodeT1c]

/-- The variable names a registered class constructor sets when run on
the given path holder with no parent. -/
def ctorVarKeys (c : CrawlerClass) (ph : PathHolder) : List String :=
  (c.construct ph none).varNames

/-- The tag names a registered class constructor sets when run on the
given path holder with no parent. -/
def ctorTagKeys (c : CrawlerClass) (ph : PathHolder) : List String :=
  (c.construct ph none).tagNames

/-- Class, registry and node of the C2 witness: a node built by the
registered class constructor, stamped with its type, then edited with a
context variable and a tag. -/
def witRTClass : CrawlerClass := witCls "G"

def witRTReg : Registry := [("genericFile", witRTClass)]

def witRTNode : Node :=
  (((witRTClass.construct ⟨"/a/b.txt", false⟩ none).setVar "type"
      (JValue.str "genericFile") false).setVar "custom" (JValue.num 5)
      true).setTag "approved" (JValue.boolean true)

/-! Theorems about the embedded definitions. -/

theorem odKeys_odSet_mem {k : κ} {v : α} {d : List (κ × α)}
    (h : k ∈ odKeys d) : odKeys (odSet k v d) = odKeys d := by
  induction d with
  | nil => cases h
  | cons p rest ih =>
    obtain ⟨k', v'⟩ := p
    by_cases hk : k' = k
    · simp [odSet, odKeys, hk]
    · have hmem : k ∈ odKeys rest := by
        rcases (by simpa [odKeys] using h) with h1 | h1
        · exact absurd h1.symm hk
        · simpa [odKeys] using h1
      have ih' : List.map Prod.fst (odSet k v rest) = List.map Prod.fst rest := by
        simpa [odKeys] using ih hmem
      simp [odSet, odKeys, hk, ih']

theorem odSet_not_mem {k : κ} {v : α} {d : List (κ × α)}
    (h : k ∉ odKeys d) : odSet k v d = d ++ [(k, v)] := by
  induction d with
  | nil => rfl
  | cons p rest ih =>
    obtain ⟨k', v'⟩ := p
    have hk : k' ≠ k := by
      intro hc; exact h (by simp [odKeys, hc])
    have hrest : k ∉ odKeys rest := by
      intro hc; exact h (by simp [odKeys]; right; simpa [odKeys] using hc)
    simp [odSet, hk, ih hrest]

theorem odGet_odSet_self {k : κ} {v : α} {d : List (κ × α)} :
    odGet k (odSet k v d) = some v := by
  induction d with
  | nil => simp [odSet, odGet]
  | cons p rest ih =>
    obtain ⟨k', v'⟩ := p
    by_cases hk : k' = k
    · simp [odSet, odGet, hk]
    · simp [odSet, odGet, hk, ih]

theorem odGet_odSet_ne {k j : κ} {v : α} {d : List (κ × α)}
    (h : j ≠ k) : odGet j (odSet k v d) = odGet j d := by
  have h' : ¬k = j := fun hc => h hc.symm
  induction d with
  | nil => simp [odSet, odGet, h']
  | cons p rest ih =>
    obtain ⟨k', v'⟩ := p
    by_cases hk : k' = k
    · subst hk
      simp [odSet, odGet, h']
    · by_cases hj : k' = j
      · subst hj
        simp [odSet, odGet, h]
      · simp [odSet, odGet, hk, hj, ih]

theorem odGet_eq_none_iff {k : κ} {d : List (κ × α)} :
    odGet k d = none ↔ k ∉ odKeys d := by
  induction d with
  | nil => simp [odGet, odKeys]
  | cons p rest ih =>
    obtain ⟨k', v'⟩ := p
    by_cases hk : k' = k
    · subst hk
      simp [odGet, odKeys]
    · have h' : ¬k = k' := fun hc => hk hc.symm
      simp [odGet, odKeys, hk, h', ih]

theorem odGet_isSome_iff {k : κ} {d : List (κ × α)} :
    (odGet k d).isSome ↔ k ∈ odKeys d := by
  rcases hv : odGet k d with _ | v
  · simp [odGet_eq_none_iff.mp hv]
  · have : k ∈ odKeys d := by
      by_contra hc
      rw [odGet_eq_none_iff.mpr hc] at hv
      cases hv
    simp [this]

theorem mem_odKeys_odSet {k j : κ} {v : α} {d : List (κ × α)} :
    j ∈ odKeys (odSet k v d) ↔ j ∈ odKeys d ∨ j = k := by
  induction d with
  | nil => simp [odSet, odKeys]
  | cons p rest ih =>
    obtain ⟨k', v'⟩ := p
    by_cases hk : k' = k
    · subst hk
      constructor
      · intro h
        rcases (by simpa [odSet, odKeys] using h) with h1 | h1
        · exact Or.inr h1
        · exact Or.inl (by simp [odKeys]; right; simpa [odKeys] using h1)
      · intro h
        rcases h with h1 | h1
        · rcases (by simpa [odKeys] using h1) with h2 | h2
          · simp [odSet, odKeys, h2]
          · simp [odSet, odKeys]; right; simpa [odKeys] using h2
        · simp [odSet, odKeys, h1]
    · constructor
      · intro h
        rcases (by simpa [odSet, odKeys, hk] using h) with h1 | h1
        · exact Or.inl (by simp [odKeys, h1])
        · rcases ih.mp (by simpa [odKeys] using h1) with h2 | h2
          · exact Or.inl (by simp [odKeys]; right; simpa [odKeys] using h2)
          · exact Or.inr h2
      · intro h
        have : j = k' ∨ j ∈ odKeys (odSet k v rest) := by
          rcases h with h1 | h1
          · rcases (by simpa [odKeys] using h1) with h2 | h2
            · exact Or.inl h2
            · exact Or.inr (ih.mpr (Or.inl (by simpa [odKeys] using h2)))
          · exact Or.inr (ih.mpr (Or.inr h1))
        rcases this with h2 | h2
        · simp [odSet, odKeys, hk, h2]
        · simp [odSet, odKeys, hk]; right; simpa [odKeys] using h2

theorem odKeys_append {d1 d2 : List (κ × α)} :
    odKeys (d1 ++ d2) = odKeys d1 ++ odKeys d2 := by
  simp [odKeys]

theorem odGet_append {k : κ} {d1 d2 : List (κ × α)} :
    odGet k (d1 ++ d2) = ((odGet k d1).map some).getD (odGet k d2) := by
  induction d1 with
  | nil => simp [odGet]
  | cons p rest ih =>
    obtain ⟨k', v'⟩ := p
    by_cases hk : k' = k
    · simp [odGet, hk]
    · simp [odGet, hk, ih]

theorem odGet_append_of_not_mem {k : κ} {d1 d2 : List (κ × α)}
    (h : k ∉ odKeys d1) : odGet k (d1 ++ d2) = odGet k d2 := by
  rw [odGet_append, odGet_eq_none_iff.mpr h]
  rfl

theorem odGet_append_of_get {k : κ} {v : α} {d1 d2 : List (κ × α)}
    (h : odGet k d1 = some v) : odGet k (d1 ++ d2) = some v := by
  rw [odGet_append, h]
  rfl

/-- C1: with recognizers registered in order A, B, C on top of any prior
registry knowing none of the three names, a path holder passing both the
B test and the C test is classified by C, the latest registered matching
type; and re-registering the existing name B with a new class keeps the
registration order unchanged, B holding its original ordinal slot. -/
theorem create_precedence_and_reregister_order
    (reg0 : Registry) (nA nB nC : String) (cA cB cC cB2 : CrawlerClass)
    (ph : PathHolder) (parent : Option Node)
    (hA : nA ∉ Path.registeredNames reg0)
    (hB : nB ∉ Path.registeredNames reg0)
    (hC : nC ∉ Path.registeredNames reg0)
    (hAB : nA ≠ nB) (hAC : nA ≠ nC) (hBC : nB ≠ nC)
    (htB : cB.test ph parent = true) (htC : cC.test ph parent = true) :
    Path.create
      (Path.register (Path.register (Path.register reg0 nA cA) nB cB) nC cC)
      ph parent =
      .ok ((cC.construct ph parent).setVar "type" (JValue.str nC) false) ∧
    Path.registeredNames
      (Path.register
        (Path.register (Path.register (Path.register reg0 nA cA) nB cB) nC cC)
        nB cB2) =
      Path.registeredNames
        (Path.register (Path.register (Path.register reg0 nA cA) nB cB) nC cC) := by
  simp only [Path.registeredNames] at hA hB hC
  have e1 : Path.register reg0 nA cA = reg0 ++ [(nA, cA)] := odSet_not_mem hA
  have hB1 : nB ∉ odKeys (reg0 ++ [(nA, cA)]) := by
    rw [odKeys_append]
    intro h
    rcases List.mem_append.mp h with h | h
    · exact hB h
    · simp [odKeys] at h
      exact hAB h.symm
  have e2 : Path.register (Path.register reg0 nA cA) nB cB
      = reg0 ++ [(nA, cA)] ++ [(nB, cB)] := by
    rw [Path.register, e1]
    exact odSet_not_mem hB1
  have hC1 : nC ∉ odKeys (reg0 ++ [(nA, cA)] ++ [(nB, cB)]) := by
    rw [odKeys_append, odKeys_append]
    intro h
    rcases List.mem_append.mp h with h | h
    · rcases List.mem_append.mp h with h | h
      · exact hC h
      · simp [odKeys] at h
        exact hAC h.symm
    · simp [odKeys] at h
      exact hBC h.symm
  have e3 : Path.register (Path.register (Path.register reg0 nA cA) nB cB) nC cC
      = reg0 ++ [(nA, cA)] ++ [(nB, cB)] ++ [(nC, cC)] := by
    rw [Path.register, e2]
    exact odSet_not_mem hC1
  constructor
  · simp only [Path.create, e3]
    have hrev : (reg0 ++ [(nA, cA)] ++ [(nB, cB)] ++ [(nC, cC)]).reverse
        = (nC, cC) :: (nB, cB) :: (nA, cA) :: reg0.reverse := by
      simp
    rw [hrev]
    simp [Path.createAux, htC]
  · simp only [Path.registeredNames, Path.register]
    have hmem : nB ∈ odKeys
        (odSet nC cC (Path.register (Path.register reg0 nA cA) nB cB)) := by
      show nB ∈ odKeys (Path.register (Path.register (Path.register reg0 nA cA) nB cB) nC cC)
      rw [e3]
      simp [odKeys_append, odKeys]
    exact odKeys_odSet_mem hmem

/-- C1 witness: registries A, B, C of always-matching classes over the
empty registry; the classifier picks C and re-registration of B keeps
the name order. -/
theorem create_precedence_witness :
    ("A" ∉ Path.registeredNames ([] : Registry)) ∧
    (witCls "B").test witPh none = true ∧
    (Path.create
        (Path.register (Path.register (Path.register ([] : Registry) "A" (witCls "A"))
          "B" (witCls "B")) "C" (witCls "C")) witPh none =
      .ok (((witCls "C").construct witPh none).setVar "type" (JValue.str "C") false) ∧
    Path.registeredNames
      (Path.register
        (Path.register (Path.register (Path.register ([] : Registry) "A" (witCls "A"))
          "B" (witCls "B")) "C" (witCls "C")) "B" (witCls "BNew")) =
      Path.registeredNames
        (Path.register (Path.register (Path.register ([] : Registry) "A" (witCls "A"))
          "B" (witCls "B")) "C" (witCls "C"))) := by
  refine ⟨by simp [Path.registeredNames, odKeys], rfl, ?_⟩
  exact create_precedence_and_reregister_order [] "A" "B" "C"
    (witCls "A") (witCls "B") (witCls "C") (witCls "BNew") witPh none
    (by simp [Path.registeredNames, odKeys])
    (by simp [Path.registeredNames, odKeys])
    (by simp [Path.registeredNames, odKeys])
    (by decide) (by decide) (by decide) rfl rfl

theorem createAux_all_false (l : List (String × CrawlerClass)) (ph : PathHolder)
    (parent : Option Node) (h : ∀ p ∈ l, p.2.test ph parent = false) :
    Path.createAux l ph parent = .error (.noMatch ph.path) := by
  induction l with
  | nil => rfl
  | cons p rest ih =>
    obtain ⟨name, c⟩ := p
    have hc : c.test ph parent = false := h (name, c) (List.mem_cons_self _ _)
    simp only [Path.createAux, hc]
    exact ih (fun q hq => h q (List.mem_cons_of_mem _ hq))

/-- C7: when no registered test claims the path holder, Path.create ends
in the raised no-match failure (the failing assert of lines 218-221,
named NoMatchingClassifierError by the spec): an error value is
propagated, never a silently returned empty result. -/
theorem create_no_match_error (reg : Registry) (ph : PathHolder)
    (parent : Option Node)
    (h : ∀ p ∈ reg, p.2.test ph parent = false) :
    Path.create reg ph parent = .error (.noMatch ph.path) := by
  simp only [Path.create]
  exact createAux_all_false _ ph parent (fun p hp => h p (List.mem_reverse.mp hp))

/-- C7 witness: a one-entry registry whose test rejects the path. -/
theorem create_no_match_witness :
    (∀ p ∈ [("F", witClsFalse)], p.2.test witPh none = false) ∧
    Path.create [("F", witClsFalse)] witPh none = .error (.noMatch witPh.path) := by
  have hfun : ∀ p ∈ [("F", witClsFalse)], p.2.test witPh none = false := by
    intro p hp
    simp at hp
    subst hp
    rfl
  exact ⟨hfun, create_no_match_error _ witPh none hfun⟩

/-- C6: with the memo empty, a first glob call computes and caches the
collection of the current filesystem state; a second call with useCache
true returns the memoized list unchanged even though the enumeration
function now sees a different filesystem state; a call with useCache
false recomputes, returns the new collection and refreshes the memo. -/
theorem glob_cache_behavior {FS : Type} (reg : Registry)
    (collect : FS → List Node) (fs1 fs2 : FS) :
    Path.glob reg (fun _ => collect fs1) ⟨none⟩ [] true
      = (some (collect fs1), ⟨some (collect fs1)⟩) ∧
    Path.glob reg (fun _ => collect fs2) ⟨some (collect fs1)⟩ [] true
      = (some (collect fs1), ⟨some (collect fs1)⟩) ∧
    Path.glob reg (fun _ => collect fs2) ⟨some (collect fs1)⟩ [] false
      = (some (collect fs2), ⟨some (collect fs2)⟩) :=
  ⟨rfl, rfl, rfl⟩

/-- C6 witness: a concrete filesystem change between the calls. -/
theorem glob_cache_witness :
    witCollect true ≠ witCollect false ∧
    (Path.glob ([] : Registry) (fun _ => witCollect true) ⟨none⟩ [] true
      = (some (witCollect true), ⟨some (witCollect true)⟩) ∧
    Path.glob ([] : Registry) (fun _ => witCollect false) ⟨some (witCollect true)⟩ [] true
      = (some (witCollect true), ⟨some (witCollect true)⟩) ∧
    Path.glob ([] : Registry) (fun _ => witCollect false) ⟨some (witCollect true)⟩ [] false
      = (some (witCollect false), ⟨some (witCollect false)⟩)) :=
  ⟨by decide, glob_cache_behavior [] witCollect true false⟩

/-- C9, evaluated at the failing input: the single bound node carries
assetName heroA and variant red; loadPublishData stores red into the
variant attribute, yet the variant accessor returns heroA because the
source returns self.__assetName (CreateVersion.py line 44) while
self.__variant is assigned and never read. The remaining accessors
resolve from the first bound node as claimed. -/
theorem variant_returns_assetName :
    witAssetNode.var "variant" = some (JValue.str "red") ∧
    (CreateVersion.loadPublishData witAssetTask).variantV = some (JValue.str "red") ∧
    CreateVersion.variant witAssetTask = some (JValue.str "heroA") ∧
    CreateVersion.assetName witAssetTask = some (JValue.str "heroA") ∧
    CreateVersion.versionPath witAssetTask = "/job/v002" ∧
    CreateVersion.dataPath witAssetTask = "/job/v002/data" ∧
    CreateVersion.version witAssetTask = some 2 := by
  refine ⟨rfl, by decide, by decide, by decide, by decide, by decide, by decide⟩

theorem pyStartsWith_self_slash (s : String) : pyStartsWith s (s ++ "/") = false := by
  unfold pyStartsWith
  rw [String.data_append]
  cases hb : (s.data ++ "/".data).isPrefixOf s.data
  · rfl
  · exfalso
    have hpre : s.data ++ "/".data <+: s.data := by
      have := List.isPrefixOf_iff_prefix.mp hb
      exact this
    have hlen := hpre.length_le
    simp at hlen

/-- C3 amended: addFile fails with FileNotUnderDataDirectoryError
exactly when the path does not start with dataPath plus the separator;
in particular the data directory path itself (no trailing separator) and
every path outside it are rejected, and the error result records no file
entry; but the string dataPath + separator alone does pass the
startswith check, so it is accepted even though it denotes the data
directory itself rather than something strictly under it. -/
theorem addFile_not_under_data_error_iff
    (fsSize : String → Option Nat) (t : CreateVersion.CVTask)
    (fp : String) (mdr : Option Nat) :
    (CreateVersion.addFile fsSize t fp mdr
        = .error .fileNotUnderDataDirectory ↔
      pyStartsWith fp (CreateVersion.dataPath t ++ "/") = false) ∧
    CreateVersion.addFile fsSize t (CreateVersion.dataPath t) mdr
      = .error .fileNotUnderDataDirectory := by
  have hiff : ∀ s : String,
      CreateVersion.addFile fsSize t s mdr
          = .error .fileNotUnderDataDirectory ↔
        pyStartsWith s (CreateVersion.dataPath t ++ "/") = false := by
    intro s
    unfold CreateVersion.addFile
    cases hsw : pyStartsWith s (CreateVersion.dataPath t ++ "/")
    · simp [show (CreateVersion.loadPublishData t).dataPathV
          = CreateVersion.dataPath t from rfl, hsw]
    · simp only [show (CreateVersion.loadPublishData t).dataPathV
          = CreateVersion.dataPath t from rfl, hsw]
      cases hst : fsSize s <;> simp [hst]
  refine ⟨hiff fp, ?_⟩
  exact (hiff (CreateVersion.dataPath t)).mpr
    (pyStartsWith_self_slash (CreateVersion.dataPath t))

/-- C3 amended witness: at the concrete task the data directory is
/job/v002/data; a path under it is not rejected by the iff while the
directory path itself is. -/
theorem addFile_not_under_data_witness :
    ((CreateVersion.addFile (fun _ => some 0) witAssetTask "/elsewhere/f.txt" none
        = .error .fileNotUnderDataDirectory ↔
      pyStartsWith "/elsewhere/f.txt" (CreateVersion.dataPath witAssetTask ++ "/") = false) ∧
    CreateVersion.addFile (fun _ => some 0) witAssetTask
        (CreateVersion.dataPath witAssetTask) none
      = .error .fileNotUnderDataDirectory) ∧
    CreateVersion.addFile (fun _ => some 0) witAssetTask "/elsewhere/f.txt" none
      = .error .fileNotUnderDataDirectory :=
  ⟨addFile_not_under_data_error_iff (fun _ => some 0) witAssetTask "/elsewhere/f.txt" none,
   rfl⟩

/-- C3 counterexample: the string dataPath + "/" differs from the data
directory only by a trailing separator and is not strictly under it,
yet addFile accepts it and records a file entry for it. -/
theorem addFile_trailing_sep_accepted :
    CreateVersion.dataPath witAssetTask = "/job/v002/data" ∧
    (match CreateVersion.addFile (fun _ => some 4096) witAssetTask
        ("/job/v002/data" ++ "/") none with
     | .ok t' => CreateVersion.filesList t'
     | .error _ => []) = ["/job/v002/data/"] := by
  exact ⟨by decide, by decide⟩

theorem odKeys_lt_not_mem {α : Type} {h : List (Nat × α)} {n : Nat}
    (hb : ∀ p ∈ h, p.1 < n) : n ∉ odKeys h := by
  intro hmem
  rcases (by simpa [odKeys] using hmem : ∃ p ∈ h, p.1 = n) with ⟨p, hp, hpn⟩
  exact absurd (hpn ▸ hb p hp) (lt_irrefl n)

theorem loadPublishData_frame (t : CreateVersion.CVTask) :
    (CreateVersion.loadPublishData t).heap = t.heap ∧
    (CreateVersion.loadPublishData t).nextRef = t.nextRef ∧
    (CreateVersion.loadPublishData t).files = t.files := by
  unfold CreateVersion.loadPublishData
  cases hl : t.loaded <;> cases hpc : t.pathCrawlers <;> simp

theorem addFile_ok_inv {fsSize : String → Option Nat}
    {t t' : CreateVersion.CVTask} {fp : String} {mdr : Option Nat}
    (hok : CreateVersion.addFile fsSize t fp mdr = .ok t') :
    ∃ sz, fsSize fp = some sz ∧
      t' = (let t1 := CreateVersion.loadPublishData t
            let md0 := match mdr with
              | none => []
              | some r => CreateVersion.refGetD t1.heap r
            let md1 := odSet "size" (JValue.num (Int.ofNat sz)) md0
            let md2 := if (odGet "type" md1).isSome then md1
                       else odSet "type" (JValue.str (pyExtNoDot fp)) md1
            { t1 with heap := t1.heap ++ [(t1.nextRef, md2)],
                      nextRef := t1.nextRef + 1,
                      files := odSet fp t1.nextRef t1.files }) := by
  cases mdr with
  | none =>
    unfold CreateVersion.addFile at hok
    cases hsw : pyStartsWith fp ((CreateVersion.loadPublishData t).dataPathV ++ "/")
    · simp [hsw] at hok
    · simp only [hsw, Bool.not_true, Bool.false_eq_true, if_false] at hok
      cases hst : fsSize fp
      · simp [hst] at hok
      · simp only [hst] at hok
        exact ⟨_, rfl, (Except.ok.inj hok).symm⟩
  | some r =>
    unfold CreateVersion.addFile at hok
    cases hsw : pyStartsWith fp ((CreateVersion.loadPublishData t).dataPathV ++ "/")
    · simp [hsw] at hok
    · simp only [hsw, Bool.not_true, Bool.false_eq_true, if_false] at hok
      cases hst : fsSize fp
      · simp [hst] at hok
      · simp only [hst] at hok
        exact ⟨_, rfl, (Except.ok.inj hok).symm⟩

/-- C8 amended: on a successful addFile the recorded size entry always
equals the on-disk size, overwriting any caller-supplied value; the
recorded type entry keeps the caller value when supplied and is the path
extension otherwise; and the stored metadata is an independent copy:
mutating the caller dictionary afterwards leaves the recorded entry
unchanged. -/
theorem addFile_metadata_population
    (fsSize : String → Option Nat) (t t' : CreateVersion.CVTask)
    (fp : String) (cr : Nat) (sz : Nat)
    (hwf : ∀ p ∈ t.heap, p.1 < t.nextRef)
    (hcr : cr < t.nextRef)
    (hsz : fsSize fp = some sz)
    (hok : CreateVersion.addFile fsSize t fp (some cr) = .ok t') :
    CreateVersion.recordedVal t' fp "size" = some (JValue.num (Int.ofNat sz)) ∧
    (∀ ty, odGet "type" (CreateVersion.refGetD t.heap cr) = some ty →
      CreateVersion.recordedVal t' fp "type" = some ty) ∧
    (odGet "type" (CreateVersion.refGetD t.heap cr) = none →
      CreateVersion.recordedVal t' fp "type"
        = some (JValue.str (pyExtNoDot fp))) ∧
    (∀ k v, CreateVersion.recordedDict (CreateVersion.mutateRef t' cr k v) fp
      = CreateVersion.recordedDict t' fp) := by
  obtain ⟨sz', hsz', ht'⟩ := addFile_ok_inv hok
  rw [hsz] at hsz'
  obtain rfl : sz = sz' := Option.some.inj hsz'
  obtain ⟨hH, hN, hF⟩ := loadPublishData_frame t
  have hmd0 : CreateVersion.refGetD (CreateVersion.loadPublishData t).heap cr
      = CreateVersion.refGetD t.heap cr := by rw [hH]
  have hfiles : t'.files = odSet fp t.nextRef t.files := by
    rw [ht']
    simp only [hF, hN]
  have hheap : t'.heap = t.heap ++
      [(t.nextRef,
        if (odGet "type" (odSet "size" (JValue.num (Int.ofNat sz))
              (CreateVersion.refGetD t.heap cr))).isSome then
          odSet "size" (JValue.num (Int.ofNat sz)) (CreateVersion.refGetD t.heap cr)
        else
          odSet "type" (JValue.str (pyExtNoDot fp))
            (odSet "size" (JValue.num (Int.ofNat sz))
              (CreateVersion.refGetD t.heap cr)))] := by
    rw [ht']
    simp only [hH, hN, hmd0]
  have hnm : t.nextRef ∉ odKeys t.heap := odKeys_lt_not_mem hwf
  have hrefD : ∀ d : CreateVersion.Dict,
      CreateVersion.refGetD (t.heap ++ [(t.nextRef, d)]) t.nextRef = d := by
    intro d
    unfold CreateVersion.refGetD
    rw [odGet_append_of_not_mem hnm]
    simp [odGet]
  have hrd : CreateVersion.recordedDict t' fp = some
      (if (odGet "type" (odSet "size" (JValue.num (Int.ofNat sz))
            (CreateVersion.refGetD t.heap cr))).isSome then
        odSet "size" (JValue.num (Int.ofNat sz)) (CreateVersion.refGetD t.heap cr)
      else
        odSet "type" (JValue.str (pyExtNoDot fp))
          (odSet "size" (JValue.num (Int.ofNat sz))
            (CreateVersion.refGetD t.heap cr))) := by
    unfold CreateVersion.recordedDict
    rw [hfiles, hheap, odGet_odSet_self]
    simp only [Option.map_some']
    rw [hrefD]
  have htypes : odGet "type" (odSet "size" (JValue.num (Int.ofNat sz))
      (CreateVersion.refGetD t.heap cr)) = odGet "type" (CreateVersion.refGetD t.heap cr) :=
    odGet_odSet_ne (by decide)
  refine ⟨?_, ?_, ?_, ?_⟩
  · rw [CreateVersion.recordedVal, hrd]
    by_cases hty : (odGet "type" (odSet "size" (JValue.num (Int.ofNat sz))
        (CreateVersion.refGetD t.heap cr))).isSome = true
    · rw [if_pos hty]
      exact odGet_odSet_self
    · rw [if_neg hty]
      show odGet "size" (odSet "type" (JValue.str (pyExtNoDot fp))
        (odSet "size" (JValue.num (Int.ofNat sz))
          (CreateVersion.refGetD t.heap cr))) = some (JValue.num (Int.ofNat sz))
      rw [odGet_odSet_ne (by decide : ("size" : String) ≠ "type")]
      exact odGet_odSet_self
  · intro ty hty0
    have hsome : (odGet "type" (odSet "size" (JValue.num (Int.ofNat sz))
        (CreateVersion.refGetD t.heap cr))).isSome = true := by
      rw [htypes, hty0]
      rfl
    rw [CreateVersion.recordedVal, hrd, if_pos hsome]
    exact htypes.trans hty0
  · intro hno
    have hfalse : ¬(odGet "type" (odSet "size" (JValue.num (Int.ofNat sz))
        (CreateVersion.refGetD t.heap cr))).isSome = true := by
      rw [htypes, hno]
      simp
    rw [CreateVersion.recordedVal, hrd, if_neg hfalse]
    exact odGet_odSet_self
  · intro k v
    unfold CreateVersion.recordedDict CreateVersion.mutateRef
    simp only
    rw [hfiles, odGet_odSet_self]
    simp only [Option.map_some']
    have : CreateVersion.refGetD
        (odSet cr (odSet k v (CreateVersion.refGetD t'.heap cr)) t'.heap) t.nextRef
        = CreateVersion.refGetD t'.heap t.nextRef := by
      unfold CreateVersion.refGetD
      rw [odGet_odSet_ne (by omega : t.nextRef ≠ cr)]
    rw [this]

theorem refGetD_append_fresh {h : CreateVersion.Heap} {n : Nat}
    {d : CreateVersion.Dict} (hn : n ∉ odKeys h) :
    CreateVersion.refGetD (h ++ [(n, d)]) n = d := by
  unfold CreateVersion.refGetD
  rw [odGet_append_of_not_mem hn]
  simp [odGet]

theorem odGet_append_single_ne {α : Type} {h : List (Nat × α)} {n m : Nat}
    {d : α} (hne : m ≠ n) : odGet m (h ++ [(n, d)]) = odGet m h := by
  rw [odGet_append]
  cases hg : odGet m h
  · have : ¬n = m := fun hc => hne hc.symm
    simp [odGet, this]
  · simp

/-- C8 counterexample: the caller supplied size 5, the disk reports 7;
the recorded entry holds 7, so size is not auto-populated only when
absent but overwritten unconditionally (CreateVersion.py line 104). -/
theorem addFile_size_overwritten :
    odGet "size" (CreateVersion.refGetD witMetaTask.heap 0)
      = some (JValue.num 5) ∧
    (match CreateVersion.addFile (fun _ => some 7) witMetaTask
        "/job/v001/data/img.dpx" (some 0) with
     | .ok t' => CreateVersion.recordedVal t' "/job/v001/data/img.dpx" "size"
     | .error _ => none) = some (JValue.num 7) ∧
    JValue.num 7 ≠ JValue.num 5 :=
  ⟨rfl, by decide, by decide⟩

/-- C8 witness: the amended population property applied at the concrete
call. -/
theorem addFile_metadata_witness :
    ((∀ p ∈ witMetaTask.heap, p.1 < witMetaTask.nextRef) ∧
     0 < witMetaTask.nextRef ∧
     CreateVersion.addFile (fun _ => some 7) witMetaTask
        "/job/v001/data/img.dpx" (some 0) = .ok witMetaTaskAfter) ∧
    CreateVersion.recordedVal witMetaTaskAfter "/job/v001/data/img.dpx" "size"
      = some (JValue.num (Int.ofNat 7)) :=
  ⟨⟨by decide, by decide, rfl⟩,
   (addFile_metadata_population (fun _ => some 7) witMetaTask witMetaTaskAfter
      "/job/v001/data/img.dpx" 0 7 (by decide) (by decide) rfl rfl).1⟩

/-- C10: fileMetadata returns an independent copy of the recorded
metadata: the returned dictionary equals the recorded one, mutating the
returned dictionary leaves the recorded entry unchanged, and a second
fileMetadata call for the same path still returns the originally
recorded values. -/
theorem fileMetadata_returns_copy (t : CreateVersion.CVTask) (fp : String)
    (r : Nat)
    (hwf : ∀ p ∈ t.heap, p.1 < t.nextRef)
    (hr : r < t.nextRef)
    (hfp : odGet fp t.files = some r) :
    ∃ t1 r1, CreateVersion.fileMetadata t fp = .ok (t1, r1) ∧
      CreateVersion.refGetD t1.heap r1 = CreateVersion.refGetD t.heap r ∧
      ∀ k v,
        CreateVersion.recordedDict (CreateVersion.mutateRef t1 r1 k v) fp
            = some (CreateVersion.refGetD t.heap r) ∧
        ∃ t2 r2,
          CreateVersion.fileMetadata (CreateVersion.mutateRef t1 r1 k v) fp
              = .ok (t2, r2) ∧
          CreateVersion.refGetD t2.heap r2 = CreateVersion.refGetD t.heap r := by
  have hnm : t.nextRef ∉ odKeys t.heap := odKeys_lt_not_mem hwf
  have hfm : CreateVersion.fileMetadata t fp = .ok
      ({ t with heap := t.heap ++ [(t.nextRef, CreateVersion.refGetD t.heap r)],
                nextRef := t.nextRef + 1 }, t.nextRef) := by
    unfold CreateVersion.fileMetadata
    rw [hfp]
  refine ⟨_, _, hfm, refGetD_append_fresh hnm, ?_⟩
  intro k v
  have hrne : r ≠ t.nextRef := by omega
  have hmget : ∀ d' : CreateVersion.Dict,
      CreateVersion.refGetD (odSet t.nextRef d'
        (t.heap ++ [(t.nextRef, CreateVersion.refGetD t.heap r)])) r
      = CreateVersion.refGetD t.heap r := by
    intro d'
    unfold CreateVersion.refGetD
    rw [odGet_odSet_ne hrne, odGet_append_single_ne hrne]
  constructor
  · unfold CreateVersion.recordedDict CreateVersion.mutateRef
    simp only
    rw [hfp]
    simp only [Option.map_some']
    exact congrArg some (hmget _)
  · have hmem : t.nextRef ∈ odKeys
        (t.heap ++ [(t.nextRef, CreateVersion.refGetD t.heap r)]) := by
      rw [odKeys_append]
      simp [odKeys]
    have hkeys : ∀ d' : CreateVersion.Dict,
        odKeys (odSet t.nextRef d'
          (t.heap ++ [(t.nextRef, CreateVersion.refGetD t.heap r)]))
        = odKeys (t.heap ++ [(t.nextRef, CreateVersion.refGetD t.heap r)]) :=
      fun _ => odKeys_odSet_mem hmem
    have hn2 : ∀ d' : CreateVersion.Dict,
        t.nextRef + 1 ∉ odKeys (odSet t.nextRef d'
          (t.heap ++ [(t.nextRef, CreateVersion.refGetD t.heap r)])) := by
      intro d'
      rw [hkeys d', odKeys_append]
      intro hc
      rcases List.mem_append.mp hc with hc | hc
      · exact odKeys_lt_not_mem (fun p hp' => Nat.lt_succ_of_lt (hwf p hp')) hc
      · simp [odKeys] at hc
    have h3fp : odGet fp (CreateVersion.mutateRef
        ({ t with heap := t.heap ++ [(t.nextRef, CreateVersion.refGetD t.heap r)],
                  nextRef := t.nextRef + 1 }) t.nextRef k v).files = some r := hfp
    have hfm2 : CreateVersion.fileMetadata (CreateVersion.mutateRef
        ({ t with heap := t.heap ++ [(t.nextRef, CreateVersion.refGetD t.heap r)],
                  nextRef := t.nextRef + 1 }) t.nextRef k v) fp = .ok
        ({ (CreateVersion.mutateRef
            ({ t with heap := t.heap ++ [(t.nextRef, CreateVersion.refGetD t.heap r)],
                      nextRef := t.nextRef + 1 }) t.nextRef k v) with
            heap := (CreateVersion.mutateRef
                ({ t with heap := t.heap ++ [(t.nextRef, CreateVersion.refGetD t.heap r)],
                          nextRef := t.nextRef + 1 }) t.nextRef k v).heap ++
              [((CreateVersion.mutateRef
                  ({ t with heap := t.heap ++ [(t.nextRef, CreateVersion.refGetD t.heap r)],
                            nextRef := t.nextRef + 1 }) t.nextRef k v).nextRef,
                CreateVersion.refGetD (CreateVersion.mutateRef
                  ({ t with heap := t.heap ++ [(t.nextRef, CreateVersion.refGetD t.heap r)],
                            nextRef := t.nextRef + 1 }) t.nextRef k v).heap r)],
            nextRef := (CreateVersion.mutateRef
                ({ t with heap := t.heap ++ [(t.nextRef, CreateVersion.refGetD t.heap r)],
                          nextRef := t.nextRef + 1 }) t.nextRef k v).nextRef + 1 },
         (CreateVersion.mutateRef
            ({ t with heap := t.heap ++ [(t.nextRef, CreateVersion.refGetD t.heap r)],
                      nextRef := t.nextRef + 1 }) t.nextRef k v).nextRef) := by
      unfold CreateVersion.fileMetadata
      rw [h3fp]
    refine ⟨_, _, hfm2, ?_⟩
    have hfresh := refGetD_append_fresh
      (d := CreateVersion.refGetD
        (odSet t.nextRef
          (odSet k v (CreateVersion.refGetD
            (t.heap ++ [(t.nextRef, CreateVersion.refGetD t.heap r)]) t.nextRef))
          (t.heap ++ [(t.nextRef, CreateVersion.refGetD t.heap r)])) r)
      (hn2 (odSet k v (CreateVersion.refGetD
        (t.heap ++ [(t.nextRef, CreateVersion.refGetD t.heap r)]) t.nextRef)))
    exact hfresh.trans (hmget _)

/-- C10 witness: the copy property applied at the concrete task. -/
theorem fileMetadata_returns_copy_witness :
    ((∀ p ∈ witCopyTask.heap, p.1 < witCopyTask.nextRef) ∧
     0 < witCopyTask.nextRef ∧
     odGet "/job/v001/data/img.dpx" witCopyTask.files = some 0) ∧
    (∃ t1 r1, CreateVersion.fileMetadata witCopyTask "/job/v001/data/img.dpx"
        = .ok (t1, r1) ∧
      CreateVersion.refGetD t1.heap r1
          = CreateVersion.refGetD witCopyTask.heap 0 ∧
      ∀ k v,
        CreateVersion.recordedDict (CreateVersion.mutateRef t1 r1 k v)
            "/job/v001/data/img.dpx"
            = some (CreateVersion.refGetD witCopyTask.heap 0) ∧
        ∃ t2 r2,
          CreateVersion.fileMetadata (CreateVersion.mutateRef t1 r1 k v)
              "/job/v001/data/img.dpx" = .ok (t2, r2) ∧
          CreateVersion.refGetD t2.heap r2
            = CreateVersion.refGetD witCopyTask.heap 0) :=
  ⟨⟨by decide, by decide, by decide⟩,
   fileMetadata_returns_copy witCopyTask "/job/v001/data/img.dpx" 0
     (by decide) (by decide) (by decide)⟩

theorem mem_odKeys_foldl_of_mem
    (f : String × Nat → String) (g : String × Nat → CreateVersion.Dict)
    (l : List (String × Nat)) (acc : List (String × CreateVersion.Dict))
    (j : String) (hj : j ∈ odKeys acc) :
    j ∈ odKeys (l.foldl (fun fd p => odSet (f p) (g p) fd) acc) := by
  induction l generalizing acc with
  | nil => exact hj
  | cons p rest ih =>
    exact ih _ (mem_odKeys_odSet.mpr (Or.inl hj))

theorem mem_odKeys_foldl
    (f : String × Nat → String) (g : String × Nat → CreateVersion.Dict)
    (l : List (String × Nat)) (acc : List (String × CreateVersion.Dict))
    (pr : String × Nat) (h : pr ∈ l) :
    f pr ∈ odKeys (l.foldl (fun fd p => odSet (f p) (g p) fd) acc) := by
  induction l generalizing acc with
  | nil => cases h
  | cons p rest ih =>
    rcases List.mem_cons.mp h with rfl | hmem
    · exact mem_odKeys_foldl_of_mem f g rest _ _
        (mem_odKeys_odSet.mpr (Or.inr rfl))
    · exact ih _ hmem

theorem pySlice_append_slash (a b : String) :
    pySlice (a ++ "/" ++ b) (a.length + 1) = b := by
  unfold pySlice
  rw [String.data_append, String.data_append]
  have h1 : a.length + 1 = (a.data ++ "/".data).length := by
    show a.data.length + 1 = (a.data ++ "/".data).length
    simp
  rw [h1, List.drop_left]

/-- C4: the info record carries size equal to the exact sum of the
recorded size entries and version equal to the integer parsed from the
version folder name with its first character removed; the manifest keys
each recorded file by its path with the first len(versionPath)+1
characters removed, which on a path of the shape versionPath/rel is
exactly rel (for example data/img.dpx). -/
theorem writeInfo_writeData_fields
    (t : CreateVersion.CVTask) (pc : Node) (rest : List Node)
    (user : String) (elapsed : Int) (S v : Int)
    (hload : t.loaded = false) (hpc : t.pathCrawlers = pc :: rest)
    (hS : CreateVersion.totalSizeOf t = some S)
    (hv : parsePyInt (pySlice (pyBaseName (CreateVersion.versionPath t)) 1)
      = some v) :
    CreateVersion.version t = some v ∧
    (∃ info, CreateVersion.writeInfoDict t user elapsed = some info ∧
      odGet "size" info = some (JValue.num S) ∧
      odGet "version" info = some (JValue.num v)) ∧
    (∀ pr ∈ t.files,
      pySlice pr.1 ((CreateVersion.versionPath t).length + 1)
        ∈ odKeys (CreateVersion.writeDataDict t)) ∧
    (∀ rel : String,
      pySlice (CreateVersion.versionPath t ++ "/" ++ rel)
        ((CreateVersion.versionPath t).length + 1) = rel) := by
  have hvp : CreateVersion.versionPath t = pyDirname (t.filePathOf pc) := by
    unfold CreateVersion.versionPath CreateVersion.loadPublishData
    rw [hload, hpc]
  have hverv : CreateVersion.version t = some v := by
    have hver : CreateVersion.version t
        = parsePyInt (pySlice (pyBaseName (pyDirname (t.filePathOf pc))) 1) := by
      unfold CreateVersion.version CreateVersion.loadPublishData
      rw [hload, hpc]
    rw [hvp] at hv
    exact hver.trans hv
  refine ⟨hverv, ?_, ?_, fun rel => pySlice_append_slash _ rel⟩
  · have hwi : CreateVersion.writeInfoDict t user elapsed = some
        (if CreateVersion.jTruthy (CreateVersion.assetName t) = true then
          odSet "variant" ((CreateVersion.variant t).getD (JValue.str ""))
            (odSet "assetName" ((CreateVersion.assetName t).getD (JValue.str ""))
              (odSet "totalTime" (JValue.num elapsed)
                (odSet "user" (JValue.str user)
                  (odSet "version" (JValue.num v)
                    (odSet "size" (JValue.num S) t.info)))))
        else
          odSet "totalTime" (JValue.num elapsed)
            (odSet "user" (JValue.str user)
              (odSet "version" (JValue.num v)
                (odSet "size" (JValue.num S) t.info)))) := by
      unfold CreateVersion.writeInfoDict
      rw [hS, hverv]
    refine ⟨_, hwi, ?_, ?_⟩
    · by_cases hj : CreateVersion.jTruthy (CreateVersion.assetName t) = true
      · rw [if_pos hj,
          odGet_odSet_ne (by decide : ("size" : String) ≠ "variant"),
          odGet_odSet_ne (by decide : ("size" : String) ≠ "assetName"),
          odGet_odSet_ne (by decide : ("size" : String) ≠ "totalTime"),
          odGet_odSet_ne (by decide : ("size" : String) ≠ "user"),
          odGet_odSet_ne (by decide : ("size" : String) ≠ "version")]
        exact odGet_odSet_self
      · rw [if_neg hj,
          odGet_odSet_ne (by decide : ("size" : String) ≠ "totalTime"),
          odGet_odSet_ne (by decide : ("size" : String) ≠ "user"),
          odGet_odSet_ne (by decide : ("size" : String) ≠ "version")]
        exact odGet_odSet_self
    · by_cases hj : CreateVersion.jTruthy (CreateVersion.assetName t) = true
      · rw [if_pos hj,
          odGet_odSet_ne (by decide : ("version" : String) ≠ "variant"),
          odGet_odSet_ne (by decide : ("version" : String) ≠ "assetName"),
          odGet_odSet_ne (by decide : ("version" : String) ≠ "totalTime"),
          odGet_odSet_ne (by decide : ("version" : String) ≠ "user")]
        exact odGet_odSet_self
      · rw [if_neg hj,
          odGet_odSet_ne (by decide : ("version" : String) ≠ "totalTime"),
          odGet_odSet_ne (by decide : ("version" : String) ≠ "user")]
        exact odGet_odSet_self
  · intro pr hpr
    exact mem_odKeys_foldl
      (fun p => pySlice p.1 ((CreateVersion.versionPath t).length + 1))
      (fun p => CreateVersion.refGetD t.heap p.2) t.files [] pr hpr

/-- C4 witness: the v007 scenario; additionally the manifest maps the
key data/img.dpx to the recorded metadata with size 1024. -/
theorem writeInfo_writeData_witness :
    (witVersionTask.loaded = false ∧
     witVersionTask.pathCrawlers = witVersionNode :: [] ∧
     CreateVersion.totalSizeOf witVersionTask = some 1024 ∧
     parsePyInt (pySlice (pyBaseName
       (CreateVersion.versionPath witVersionTask)) 1) = some 7) ∧
    (CreateVersion.version witVersionTask = some 7 ∧
     (∃ info, CreateVersion.writeInfoDict witVersionTask "user" 0 = some info ∧
       odGet "size" info = some (JValue.num 1024) ∧
       odGet "version" info = some (JValue.num 7)) ∧
     (∀ pr ∈ witVersionTask.files,
       pySlice pr.1 ((CreateVersion.versionPath witVersionTask).length + 1)
         ∈ odKeys (CreateVersion.writeDataDict witVersionTask)) ∧
     (∀ rel : String,
       pySlice (CreateVersion.versionPath witVersionTask ++ "/" ++ rel)
         ((CreateVersion.versionPath witVersionTask).length + 1) = rel)) ∧
    odGet "data/img.dpx" (CreateVersion.writeDataDict witVersionTask)
      = some [("size", JValue.num 1024), ("type", JValue.str "dpx")] :=
  ⟨⟨rfl, rfl, by decide, by decide⟩,
   writeInfo_writeData_fields witVersionTask witVersionNode [] "user" 0 1024 7
     rfl rfl (by decide) (by decide),
   by decide⟩

theorem mem_insertUnique {acc : List Node} {x y : Node} :
    y ∈ Path.insertUnique acc x ↔ y ∈ acc ∨ y = x := by
  unfold Path.insertUnique
  by_cases hx : acc.contains x = true
  · have hx' : x ∈ acc := by simpa using hx
    rw [if_pos hx]
    constructor
    · exact Or.inl
    · rintro (h | rfl)
      · exact h
      · exact hx'
  · rw [if_neg hx]
    simp

theorem mem_setUpdate {xs : List Node} {acc : List Node} {y : Node} :
    y ∈ Path.setUpdate acc xs ↔ y ∈ acc ∨ y ∈ xs := by
  unfold Path.setUpdate
  induction xs generalizing acc with
  | nil => simp
  | cons x rest ih =>
    simp only [List.foldl_cons]
    rw [ih, mem_insertUnique]
    simp [List.mem_cons, or_assoc]

theorem nodup_insertUnique {acc : List Node} {x : Node} (h : acc.Nodup) :
    (Path.insertUnique acc x).Nodup := by
  unfold Path.insertUnique
  by_cases hx : acc.contains x = true
  · rw [if_pos hx]
    exact h
  · rw [if_neg hx]
    have hx' : x ∉ acc := by simpa using hx
    simp [List.nodup_append, h, hx']

theorem nodup_setUpdate {xs : List Node} {acc : List Node} (h : acc.Nodup) :
    (Path.setUpdate acc xs).Nodup := by
  unfold Path.setUpdate
  induction xs generalizing acc with
  | nil => exact h
  | cons x rest ih => exact ih (nodup_insertUnique h)

theorem globFilter_go (reg : Registry) (cache : List Node) :
    ∀ (fts : List Path.ClassRef) (acc : List Node),
    (∀ ft ∈ fts, (Path.baseClassOf reg ft).isSome = true) →
    acc.Nodup →
    ∃ l, fts.foldl (fun a ft =>
        match a, Path.registeredSubclasses reg ft with
        | some l, some subs =>
          some (Path.setUpdate l
            (cache.filter (fun x => subs.any (fun c => x.isInstanceOf c))))
        | _, _ => none) (some acc) = some l ∧ l.Nodup ∧
      ∀ x, x ∈ l ↔ x ∈ acc ∨ ∃ ft ∈ fts, ∃ b,
        Path.baseClassOf reg ft = some b ∧ x ∈ cache ∧
        ∃ c ∈ reg.map Prod.snd,
          isSubclassOf c b = true ∧ x.isInstanceOf c = true := by
  intro fts
  induction fts with
  | nil =>
    intro acc _ hnd
    exact ⟨acc, rfl, hnd, by simp⟩
  | cons ft rest ih =>
    intro acc hres hnd
    obtain ⟨b, hb⟩ : ∃ b, Path.baseClassOf reg ft = some b := by
      rcases hbo : Path.baseClassOf reg ft with _ | b
      · have := hres ft (List.mem_cons_self _ _)
        rw [hbo] at this
        cases this
      · exact ⟨b, rfl⟩
    have hsubs : Path.registeredSubclasses reg ft
        = some ((reg.map Prod.snd).filter (fun c => isSubclassOf c b)) := by
      unfold Path.registeredSubclasses
      rw [hb]
      rfl
    have hstep : ∀ a : Option (List Node),
        (match a, Path.registeredSubclasses reg ft with
          | some l, some subs =>
            some (Path.setUpdate l
              (cache.filter (fun x => subs.any (fun c => x.isInstanceOf c))))
          | _, _ => none) =
        a.map (fun l => Path.setUpdate l
          (cache.filter (fun x =>
            ((reg.map Prod.snd).filter (fun c => isSubclassOf c b)).any
              (fun c => x.isInstanceOf c)))) := by
      intro a
      cases a <;> simp [hsubs]
    obtain ⟨l, heq, hnd', hiff⟩ := ih
      (Path.setUpdate acc (cache.filter (fun x =>
        ((reg.map Prod.snd).filter (fun c => isSubclassOf c b)).any
          (fun c => x.isInstanceOf c))))
      (fun ft' hft' => hres ft' (List.mem_cons_of_mem _ hft'))
      (nodup_setUpdate hnd)
    refine ⟨l, ?_, hnd', ?_⟩
    · rw [List.foldl_cons, hstep (some acc)]
      exact heq
    · intro x
      rw [hiff x, mem_setUpdate, List.mem_filter]
      constructor
      · rintro ((h | ⟨hc, hany⟩) | h)
        · exact Or.inl h
        · rcases List.any_eq_true.mp hany with ⟨c, hcmem, hcinst⟩
          rcases List.mem_filter.mp hcmem with ⟨hcreg, hcsub⟩
          exact Or.inr ⟨ft, List.mem_cons_self _ _, b, hb, hc,
            c, hcreg, hcsub, hcinst⟩
        · rcases h with ⟨ft', hft', hrest⟩
          exact Or.inr ⟨ft', List.mem_cons_of_mem _ hft', hrest⟩
      · rintro (h | ⟨ft', hft', b', hb', hc, c, hcreg, hcsub, hcinst⟩)
        · exact Or.inl (Or.inl h)
        · rcases List.mem_cons.mp hft' with rfl | hft''
          · rw [hb] at hb'
            obtain rfl : b = b' := Option.some.inj hb'
            exact Or.inl (Or.inr ⟨hc, List.any_eq_true.mpr
              ⟨c, List.mem_filter.mpr ⟨hcreg, hcsub⟩, hcinst⟩⟩)
          · exact Or.inr ⟨ft', hft'', b', hb', hc, c, hcreg, hcsub, hcinst⟩

theorem duck_check_iff_derives (reg : Registry) (x : Node) (b : CrawlerClass)
    (hwf : classWellFormed reg x) :
    (∃ c ∈ reg.map Prod.snd, isSubclassOf c b = true ∧ x.isInstanceOf c = true)
      ↔ x.isInstanceOf b = true := by
  have hsub : ∀ c d : CrawlerClass, isSubclassOf c d = true ↔
      (c.classId = d.classId ∨ d.classId ∈ c.ancestors) := by
    intro c d
    simp [isSubclassOf]
  have hinst : ∀ (y : Node) (c : CrawlerClass), y.isInstanceOf c = true ↔
      (y.classId = c.classId ∨ c.classId ∈ y.classAncestors) := by
    intro y c
    simp [Node.isInstanceOf]
  obtain ⟨⟨p0, hp0, hp0id, hp0anc⟩, huniq, htrans⟩ := hwf
  constructor
  · rintro ⟨c, hcreg, hcsub, hcinst⟩
    rcases List.mem_map.mp hcreg with ⟨p, hp, rfl⟩
    rw [hinst]
    rcases (hinst x p.2).mp hcinst with hid | hanc
    · have hancs : p.2.ancestors = x.classAncestors := huniq p hp hid.symm
      rcases (hsub p.2 b).mp hcsub with h1 | h1
      · exact Or.inl (hid.trans h1)
      · exact Or.inr (hancs ▸ h1)
    · rcases (hsub p.2 b).mp hcsub with h1 | h1
      · exact Or.inr (h1 ▸ hanc)
      · exact Or.inr (htrans p hp hanc _ h1)
  · intro hder
    refine ⟨p0.2, List.mem_map.mpr ⟨p0, hp0, rfl⟩, ?_, ?_⟩
    · rw [hsub]
      rcases (hinst x b).mp hder with h1 | h1
      · exact Or.inl (hp0id.trans h1)
      · exact Or.inr (hp0anc ▸ h1)
    · rw [hinst]
      exact Or.inl hp0id.symm

theorem collectChildren_eq_join (cs : List Node) :
    Path.collectChildren cs = (cs.map Path.collectCrawlers).join := by
  induction cs with
  | nil => rfl
  | cons c rest ih => simp [Path.collectChildren, ih]

theorem collectCrawlers_eq (n : Node) :
    Path.collectCrawlers n
      = n :: (n.children.map Path.collectCrawlers).join := by
  cases n with
  | mk d cs =>
    rw [Path.collectCrawlers, collectChildren_eq_join]
    rfl

/-- C5 amended: glob with empty filterTypes returns the depth-first
pre-order flattened list (node before children, children in enumeration
order); with non-empty, resolvable filterTypes it returns a list holding
exactly those flattened nodes whose concrete type is or derives from one
of the filters, each exactly once, but in set insertion order grouped by
filter argument rather than in pre-order. -/
theorem glob_flatten_and_filter (reg : Registry) (n : Node)
    (fts : List Path.ClassRef) (u : Bool)
    (hne : fts ≠ [])
    (hres : ∀ ft ∈ fts, (Path.baseClassOf reg ft).isSome = true) :
    (Path.glob reg (fun _ => Path.collectCrawlers n) ⟨none⟩ [] u).1
      = some (n :: (n.children.map Path.collectCrawlers).join) ∧
    ∃ l, (Path.glob reg (fun _ => Path.collectCrawlers n) ⟨none⟩ fts u).1
        = some l ∧
      l.Nodup ∧
      ∀ x, classWellFormed reg x →
        (x ∈ l ↔ x ∈ Path.collectCrawlers n ∧
          ∃ ft ∈ fts, ∃ b, Path.baseClassOf reg ft = some b ∧
            x.isInstanceOf b = true) := by
  constructor
  · show (Path.glob reg (fun _ => Path.collectCrawlers n) ⟨none⟩ [] u).1 = _
    rw [← collectCrawlers_eq]
    cases u <;> rfl
  · obtain ⟨l, heq, hnd, hiff⟩ :=
      globFilter_go reg (Path.collectCrawlers n) fts [] hres List.nodup_nil
    refine ⟨l, ?_, hnd, ?_⟩
    · have hfe : fts.isEmpty = false := by
        cases fts
        · exact absurd rfl hne
        · rfl
      show (Path.glob reg (fun _ => Path.collectCrawlers n) ⟨none⟩ fts u).1 = some l
      unfold Path.glob
      cases u <;> simp only [hfe, Bool.false_eq_true, if_false] <;> exact heq
    · intro x hxwf
      rw [hiff x]
      simp only [List.not_mem_nil, false_or]
      constructor
      · rintro ⟨ft, hft, b, hb, hc, hduck⟩
        exact ⟨hc, ft, hft, b, hb,
          (duck_check_iff_derives reg x b hxwf).mp hduck⟩
      · rintro ⟨hc, ft, hft, b, hb, hder⟩
        exact ⟨ft, hft, b, hb, hc,
          (duck_check_iff_derives reg x b hxwf).mpr hder⟩

/-- C5 counterexample: the pre-order flattened subtree is
root, a, b, c, so its restriction to the two filtered types is a, b, c;
the filtered glob call instead yields b, a, c, grouped by filter
argument: the claimed pre-order of the filtered result fails. -/
theorem glob_filtered_not_preorder :
    (Path.glob regFilter (fun _ => Path.collectCrawlers rootFilter) ⟨none⟩
        [Path.ClassRef.byName "T2", Path.ClassRef.byName "T1"] true).1
      = some [nodeT2b, nodeT1a, nodeT1c] ∧
    (Path.collectCrawlers rootFilter).filter
        (fun x => x.isInstanceOf clsT1 || x.isInstanceOf clsT2)
      = [nodeT1a, nodeT2b, nodeT1c] ∧
    ([nodeT2b, nodeT1a, nodeT1c] : List Node)
      ≠ [nodeT1a, nodeT2b, nodeT1c] :=
  ⟨by decide, by decide, by decide⟩

/-- C5 witness: the amended membership property applied to the concrete
tree and the single filter T1. -/
theorem glob_flatten_and_filter_witness :
    (([Path.ClassRef.byName "T1"] : List Path.ClassRef) ≠ [] ∧
     (∀ ft ∈ [Path.ClassRef.byName "T1"],
       (Path.baseClassOf regFilter ft).isSome = true)) ∧
    ((Path.glob regFilter (fun _ => Path.collectCrawlers rootFilter) ⟨none⟩ [] true).1
      = some (rootFilter ::
          (rootFilter.children.map Path.collectCrawlers).join) ∧
    ∃ l, (Path.glob regFilter (fun _ => Path.collectCrawlers rootFilter) ⟨none⟩
          [Path.ClassRef.byName "T1"] true).1 = some l ∧
      l.Nodup ∧
      ∀ x, classWellFormed regFilter x →
        (x ∈ l ↔ x ∈ Path.collectCrawlers rootFilter ∧
          ∃ ft ∈ [Path.ClassRef.byName "T1"], ∃ b,
            Path.baseClassOf regFilter ft = some b ∧
            x.isInstanceOf b = true)) :=
  ⟨⟨List.cons_ne_nil _ _, by decide⟩,
   glob_flatten_and_filter regFilter rootFilter [Path.ClassRef.byName "T1"]
     true (List.cons_ne_nil _ _) (by decide)⟩

theorem var_setVar (n : Node) (k0 k : String) (v : JValue) (fl : Bool) :
    (n.setVar k0 v fl).var k = if k = k0 then some v else n.var k := by
  cases n with
  | mk d cs =>
    by_cases h : k = k0
    · subst h
      simp [Node.setVar, Node.var, NodeData.setVar, Node.data, odGet_odSet_self]
    · simp [Node.setVar, Node.var, NodeData.setVar, Node.data, h, odGet_odSet_ne h]

theorem varNames_setVar (n : Node) (k0 k : String) (v : JValue) (fl : Bool) :
    k ∈ (n.setVar k0 v fl).varNames ↔ k ∈ n.varNames ∨ k = k0 := by
  cases n with
  | mk d cs =>
    simp [Node.setVar, Node.varNames, NodeData.setVar, Node.data, mem_odKeys_odSet]

theorem ctx_setVar (n : Node) (k0 k : String) (v : JValue) (fl : Bool) :
    k ∈ (n.setVar k0 v fl).contextVarNames ↔
      k ∈ n.contextVarNames ∨ (fl = true ∧ k = k0) := by
  cases n with
  | mk d cs =>
    simp only [Node.setVar, Node.contextVarNames, NodeData.setVar, Node.data]
    cases fl with
    | false => simp
    | true =>
      by_cases hc : d.contextVars.contains k0 = true
      · rw [hc]
        simp only [Bool.not_true, Bool.and_false, Bool.false_eq_true, if_false]
        constructor
        · exact fun h => Or.inl h
        · rintro (h | ⟨-, rfl⟩)
          · exact h
          · simpa using hc
      · rw [show d.contextVars.contains k0 = false by
            cases hb : d.contextVars.contains k0
            · rfl
            · exact absurd hb hc]
        simp [List.mem_append]

theorem tags_setVar (n : Node) (k0 : String) (v : JValue) (fl : Bool) :
    (n.setVar k0 v fl).data.tags = n.data.tags := by
  cases n
  rfl

theorem children_setVar (n : Node) (k0 : String) (v : JValue) (fl : Bool) :
    (n.setVar k0 v fl).children = n.children := by
  cases n
  rfl

theorem hasParent_setVar (n : Node) (k0 : String) (v : JValue) (fl : Bool) :
    (n.setVar k0 v fl).data.hasParent = n.data.hasParent := by
  cases n
  rfl

theorem tag_setTag (n : Node) (k0 k : String) (v : JValue) :
    (n.setTag k0 v).tag k = if k = k0 then some v else n.tag k := by
  cases n with
  | mk d cs =>
    by_cases h : k = k0
    · subst h
      simp [Node.setTag, Node.tag, NodeData.setTag, Node.data, odGet_odSet_self]
    · simp [Node.setTag, Node.tag, NodeData.setTag, Node.data, h, odGet_odSet_ne h]

theorem tagNames_setTag (n : Node) (k0 k : String) (v : JValue) :
    k ∈ (n.setTag k0 v).tagNames ↔ k ∈ n.tagNames ∨ k = k0 := by
  cases n with
  | mk d cs =>
    simp [Node.setTag, Node.tagNames, NodeData.setTag, Node.data, mem_odKeys_odSet]

theorem vars_setTag (n : Node) (k0 : String) (v : JValue) :
    (n.setTag k0 v).data.vars = n.data.vars := by
  cases n
  rfl

theorem ctx_setTag (n : Node) (k0 : String) (v : JValue) :
    (n.setTag k0 v).contextVarNames = n.contextVarNames := by
  cases n
  rfl

theorem children_setTag (n : Node) (k0 : String) (v : JValue) :
    (n.setTag k0 v).children = n.children := by
  cases n
  rfl

theorem hasParent_setTag (n : Node) (k0 : String) (v : JValue) :
    (n.setTag k0 v).data.hasParent = n.data.hasParent := by
  cases n
  rfl

theorem foldSetVars_var (vs : List (String × JValue)) (ctx : List String) :
    ∀ (n0 : Node) (k : String), (odKeys vs).Nodup →
    (vs.foldl (fun n kv => n.setVar kv.1 kv.2 (ctx.contains kv.1)) n0).var k
      = ((odGet k vs).map some).getD (n0.var k) := by
  induction vs with
  | nil => intro n0 k _; rfl
  | cons kv rest ih =>
    intro n0 k hnd
    obtain ⟨k0, v0⟩ := kv
    have hnd0 : (k0 :: odKeys rest).Nodup := by simpa [odKeys] using hnd
    have hk0 : k0 ∉ odKeys rest := (List.nodup_cons.mp hnd0).1
    have hnd' : (odKeys rest).Nodup := (List.nodup_cons.mp hnd0).2
    simp only [List.foldl_cons]
    rw [ih (n0.setVar k0 v0 (ctx.contains k0)) k hnd']
    by_cases hk : k = k0
    · subst hk
      rw [odGet_eq_none_iff.mpr hk0, var_setVar]
      simp [odGet]
    · rw [var_setVar]
      have : ¬k0 = k := fun h => hk h.symm
      simp [hk, odGet, this]

theorem foldSetVars_varNames (vs : List (String × JValue)) (ctx : List String) :
    ∀ (n0 : Node) (k : String),
    (k ∈ (vs.foldl (fun n kv => n.setVar kv.1 kv.2 (ctx.contains kv.1)) n0).varNames
      ↔ k ∈ odKeys vs ∨ k ∈ n0.varNames) := by
  induction vs with
  | nil => intro n0 k; simp [odKeys]
  | cons kv rest ih =>
    intro n0 k
    obtain ⟨k0, v0⟩ := kv
    simp only [List.foldl_cons]
    rw [ih]
    rw [varNames_setVar]
    simp only [odKeys, List.map_cons, List.mem_cons]
    constructor
    · rintro (h | h | rfl)
      · exact Or.inl (Or.inr (by simpa [odKeys] using h))
      · exact Or.inr h
      · exact Or.inl (Or.inl rfl)
    · rintro ((rfl | h) | h)
      · exact Or.inr (Or.inr rfl)
      · exact Or.inl (by simpa [odKeys] using h)
      · exact Or.inr (Or.inl h)

theorem foldSetVars_ctx (vs : List (String × JValue)) (ctx : List String) :
    ∀ (n0 : Node) (k : String),
    (k ∈ (vs.foldl (fun n kv => n.setVar kv.1 kv.2 (ctx.contains kv.1)) n0).contextVarNames
      ↔ k ∈ n0.contextVarNames ∨ (k ∈ odKeys vs ∧ k ∈ ctx)) := by
  induction vs with
  | nil => intro n0 k; simp [odKeys]
  | cons kv rest ih =>
    intro n0 k
    obtain ⟨k0, v0⟩ := kv
    simp only [List.foldl_cons]
    rw [ih, ctx_setVar]
    simp only [odKeys, List.map_cons, List.mem_cons]
    constructor
    · rintro ((h | ⟨hfl, rfl⟩) | ⟨hm, hctx⟩)
      · exact Or.inl h
      · exact Or.inr ⟨Or.inl rfl, by simpa using hfl⟩
      · exact Or.inr ⟨Or.inr (by simpa [odKeys] using hm), hctx⟩
    · rintro (h | ⟨rfl | hm, hctx⟩)
      · exact Or.inl (Or.inl h)
      · exact Or.inl (Or.inr ⟨by simpa using hctx, rfl⟩)
      · exact Or.inr ⟨by simpa [odKeys] using hm, hctx⟩

theorem foldSetVars_tags (vs : List (String × JValue)) (ctx : List String) :
    ∀ n0 : Node,
    (vs.foldl (fun n kv => n.setVar kv.1 kv.2 (ctx.contains kv.1)) n0).data.tags
      = n0.data.tags := by
  induction vs with
  | nil => intro n0; rfl
  | cons kv rest ih =>
    intro n0
    simp only [List.foldl_cons]
    rw [ih, tags_setVar]

theorem foldSetVars_children (vs : List (String × JValue)) (ctx : List String) :
    ∀ n0 : Node,
    (vs.foldl (fun n kv => n.setVar kv.1 kv.2 (ctx.contains kv.1)) n0).children
      = n0.children := by
  induction vs with
  | nil => intro n0; rfl
  | cons kv rest ih =>
    intro n0
    simp only [List.foldl_cons]
    rw [ih, children_setVar]

theorem foldSetVars_hasParent (vs : List (String × JValue)) (ctx : List String) :
    ∀ n0 : Node,
    (vs.foldl (fun n kv => n.setVar kv.1 kv.2 (ctx.contains kv.1)) n0).data.hasParent
      = n0.data.hasParent := by
  induction vs with
  | nil => intro n0; rfl
  | cons kv rest ih =>
    intro n0
    simp only [List.foldl_cons]
    rw [ih, hasParent_setVar]

theorem foldSetTags_tag (ts : List (String × JValue)) :
    ∀ (n0 : Node) (k : String), (odKeys ts).Nodup →
    (ts.foldl (fun n kv => n.setTag kv.1 kv.2) n0).tag k
      = ((odGet k ts).map some).getD (n0.tag k) := by
  induction ts with
  | nil => intro n0 k _; rfl
  | cons kv rest ih =>
    intro n0 k hnd
    obtain ⟨k0, v0⟩ := kv
    have hnd0 : (k0 :: odKeys rest).Nodup := by simpa [odKeys] using hnd
    have hk0 : k0 ∉ odKeys rest := (List.nodup_cons.mp hnd0).1
    have hnd' : (odKeys rest).Nodup := (List.nodup_cons.mp hnd0).2
    simp only [List.foldl_cons]
    rw [ih (n0.setTag k0 v0) k hnd']
    by_cases hk : k = k0
    · subst hk
      rw [odGet_eq_none_iff.mpr hk0, tag_setTag]
      simp [odGet]
    · rw [tag_setTag]
      have : ¬k0 = k := fun h => hk h.symm
      simp [hk, odGet, this]

theorem foldSetTags_tagNames (ts : List (String × JValue)) :
    ∀ (n0 : Node) (k : String),
    (k ∈ (ts.foldl (fun n kv => n.setTag kv.1 kv.2) n0).tagNames
      ↔ k ∈ odKeys ts ∨ k ∈ n0.tagNames) := by
  induction ts with
  | nil => intro n0 k; simp [odKeys]
  | cons kv rest ih =>
    intro n0 k
    obtain ⟨k0, v0⟩ := kv
    simp only [List.foldl_cons]
    rw [ih, tagNames_setTag]
    simp only [odKeys, List.map_cons, List.mem_cons]
    constructor
    · rintro (h | h | rfl)
      · exact Or.inl (Or.inr (by simpa [odKeys] using h))
      · exact Or.inr h
      · exact Or.inl (Or.inl rfl)
    · rintro ((rfl | h) | h)
      · exact Or.inr (Or.inr rfl)
      · exact Or.inl (by simpa [odKeys] using h)
      · exact Or.inr (Or.inl h)

theorem foldSetTags_vars (ts : List (String × JValue)) :
    ∀ n0 : Node,
    (ts.foldl (fun n kv => n.setTag kv.1 kv.2) n0).data.vars = n0.data.vars := by
  induction ts with
  | nil => intro n0; rfl
  | cons kv rest ih =>
    intro n0
    simp only [List.foldl_cons]
    rw [ih, vars_setTag]

theorem foldSetTags_ctx (ts : List (String × JValue)) :
    ∀ n0 : Node,
    (ts.foldl (fun n kv => n.setTag kv.1 kv.2) n0).contextVarNames
      = n0.contextVarNames := by
  induction ts with
  | nil => intro n0; rfl
  | cons kv rest ih =>
    intro n0
    simp only [List.foldl_cons]
    rw [ih, ctx_setTag]

theorem foldSetTags_children (ts : List (String × JValue)) :
    ∀ n0 : Node,
    (ts.foldl (fun n kv => n.setTag kv.1 kv.2) n0).children = n0.children := by
  induction ts with
  | nil => intro n0; rfl
  | cons kv rest ih =>
    intro n0
    simp only [List.foldl_cons]
    rw [ih, children_setTag]

theorem foldSetTags_hasParent (ts : List (String × JValue)) :
    ∀ n0 : Node,
    (ts.foldl (fun n kv => n.setTag kv.1 kv.2) n0).data.hasParent
      = n0.data.hasParent := by
  induction ts with
  | nil => intro n0; rfl
  | cons kv rest ih =>
    intro n0
    simp only [List.foldl_cons]
    rw [ih, hasParent_setTag]

theorem map_odGet_eq (d : List (String × JValue)) :
    (odKeys d).Nodup →
    (odKeys d).map (fun k => (k, (odGet k d).getD (JValue.str ""))) = d := by
  induction d with
  | nil => intro _; rfl
  | cons kv rest ih =>
    intro hnd
    obtain ⟨k0, v0⟩ := kv
    have hnd0 : (k0 :: odKeys rest).Nodup := by simpa [odKeys] using hnd
    have hk0 : k0 ∉ odKeys rest := (List.nodup_cons.mp hnd0).1
    have hnd' : (odKeys rest).Nodup := (List.nodup_cons.mp hnd0).2
    have htail : (odKeys rest).map
        (fun k => (k, (odGet k ((k0, v0) :: rest)).getD (JValue.str ""))) = rest := by
      have hcongr := List.map_congr_left
        (l := odKeys rest)
        (f := fun k => (k, (odGet k ((k0, v0) :: rest)).getD (JValue.str "")))
        (g := fun k => (k, (odGet k rest).getD (JValue.str "")))
        (fun k hk => by
          have hne : ¬k0 = k := fun h => hk0 (h ▸ hk)
          simp [odGet, hne])
      exact hcongr.trans (ih hnd')
    have hhead : (odGet k0 ((k0, v0) :: rest)).getD (JValue.str "") = v0 := by
      simp [odGet]
    simp only [odKeys, List.map_cons, hhead]
    exact congrArg (List.cons (k0, v0)) htail

theorem toJson_vars_eq (n : Node) (h : n.varNames.Nodup) :
    (Path.toJson n).vars = n.data.vars :=
  map_odGet_eq n.data.vars h

theorem toJson_tags_eq (n : Node) (h : n.tagNames.Nodup) :
    (Path.toJson n).tags = n.data.tags :=
  map_odGet_eq n.data.tags h

theorem ctxVars_foldSetVarsD (l : List (String × JValue)) :
    ∀ d : NodeData,
    (l.foldl (fun d kv => d.setVar kv.1 kv.2 false) d).contextVars
      = d.contextVars := by
  induction l with
  | nil => intro d; rfl
  | cons kv rest ih =>
    intro d
    simp only [List.foldl_cons]
    rw [ih]
    simp [NodeData.setVar]

theorem ctxVars_foldSetTagsD (l : List (String × JValue)) :
    ∀ d : NodeData,
    (l.foldl (fun d kv => d.setTag kv.1 kv.2) d).contextVars
      = d.contextVars := by
  induction l with
  | nil => intro d; rfl
  | cons kv rest ih =>
    intro d
    simp only [List.foldl_cons]
    rw [ih]
    rfl

theorem hasParent_foldSetVarsD (l : List (String × JValue)) :
    ∀ d : NodeData,
    (l.foldl (fun d kv => d.setVar kv.1 kv.2 false) d).hasParent
      = d.hasParent := by
  induction l with
  | nil => intro d; rfl
  | cons kv rest ih =>
    intro d
    simp only [List.foldl_cons]
    rw [ih]
    rfl

theorem hasParent_foldSetTagsD (l : List (String × JValue)) :
    ∀ d : NodeData,
    (l.foldl (fun d kv => d.setTag kv.1 kv.2) d).hasParent
      = d.hasParent := by
  induction l with
  | nil => intro d; rfl
  | cons kv rest ih =>
    intro d
    simp only [List.foldl_cons]
    rw [ih]
    rfl

theorem construct_children (c : CrawlerClass) (ph : PathHolder)
    (parent : Option Node) : (c.construct ph parent).children = [] := rfl

theorem construct_ctx (c : CrawlerClass) (ph : PathHolder)
    (parent : Option Node) : (c.construct ph parent).contextVarNames = [] := by
  unfold CrawlerClass.construct
  simp only [Node.contextVarNames, Node.data]
  rw [ctxVars_foldSetTagsD, ctxVars_foldSetVarsD]
  rfl

theorem construct_hasParent (c : CrawlerClass) (ph : PathHolder)
    (parent : Option Node) :
    (c.construct ph parent).data.hasParent = parent.isSome := by
  unfold CrawlerClass.construct
  simp only [Node.data]
  rw [hasParent_foldSetTagsD, hasParent_foldSetVarsD]
  rfl

/-- C2: serializing a node with toJson and rebuilding it with
createFromJson yields a node with the same variable names and values,
the same context variable names, the same tag names and values and the
same type variable, and the rebuilt node has no parent and no children.
The hypotheses state that the node carries a type variable naming a
registered class and a filePath variable, that its stored names are
duplicate-free, that context variable names are variable names, and that
the keys its class constructor sets are among its own (true of every
node built by the constructor and edited afterwards). -/
theorem createFromJson_toJson_roundtrip
    (reg : Registry) (fsIsDir : String → Bool) (n : Node)
    (t : String) (cls : CrawlerClass) (fp : String)
    (ht : n.var "type" = some (JValue.str t))
    (hcls : odGet t reg = some cls)
    (hfp : n.var "filePath" = some (JValue.str fp))
    (hndv : n.varNames.Nodup)
    (hndt : n.tagNames.Nodup)
    (hctx : ∀ k ∈ n.contextVarNames, k ∈ n.varNames)
    (hcv : ∀ k ∈ ctorVarKeys cls (PathHolder.mk fp (fsIsDir fp)), k ∈ n.varNames)
    (hct : ∀ k ∈ ctorTagKeys cls (PathHolder.mk fp (fsIsDir fp)), k ∈ n.tagNames) :
    ∃ m, Path.createFromJson reg fsIsDir (Path.toJson n) = some m ∧
      (∀ k, m.var k = n.var k) ∧
      (∀ k, k ∈ m.varNames ↔ k ∈ n.varNames) ∧
      (∀ k, k ∈ m.contextVarNames ↔ k ∈ n.contextVarNames) ∧
      (∀ k, m.tag k = n.tag k) ∧
      (∀ k, k ∈ m.tagNames ↔ k ∈ n.tagNames) ∧
      m.var "type" = some (JValue.str t) ∧
      m.data.hasParent = false ∧
      m.children = [] := by
  have hvarsId : (Path.toJson n).vars = n.data.vars := toJson_vars_eq n hndv
  have htagsId : (Path.toJson n).tags = n.data.tags := toJson_tags_eq n hndt
  have hctxId : (Path.toJson n).contextVarNames = n.contextVarNames := rfl
  have hred : Path.createFromJson reg fsIsDir (Path.toJson n) = some
      (n.data.tags.foldl (fun nn kv => nn.setTag kv.1 kv.2)
        (n.data.vars.foldl (fun nn kv => nn.setVar kv.1 kv.2
          (n.contextVarNames.contains kv.1))
          (cls.construct (PathHolder.mk fp (fsIsDir fp)) none))) := by
    unfold Path.createFromJson
    rw [hvarsId, htagsId, hctxId]
    simp only [show odGet "type" n.data.vars = some (JValue.str t) from ht,
      show odGet "filePath" n.data.vars = some (JValue.str fp) from hfp, hcls]
  have hn1var : ∀ k, k ∉ n.varNames →
      (cls.construct (PathHolder.mk fp (fsIsDir fp)) none).var k = none := by
    intro k hk
    exact odGet_eq_none_iff.mpr (fun hc => hk (hcv k hc))
  have hn1tag : ∀ k, k ∉ n.tagNames →
      (cls.construct (PathHolder.mk fp (fsIsDir fp)) none).tag k = none := by
    intro k hk
    exact odGet_eq_none_iff.mpr (fun hc => hk (hct k hc))
  have hvarval : ∀ k,
      (n.data.tags.foldl (fun nn kv => nn.setTag kv.1 kv.2)
        (n.data.vars.foldl (fun nn kv => nn.setVar kv.1 kv.2
          (n.contextVarNames.contains kv.1))
          (cls.construct (PathHolder.mk fp (fsIsDir fp)) none))).var k
      = n.var k := by
    intro k
    have hmv : ∀ m' : Node,
        (n.data.tags.foldl (fun nn kv => nn.setTag kv.1 kv.2) m').var k
          = m'.var k := by
      intro m'
      show odGet k (n.data.tags.foldl (fun nn kv => nn.setTag kv.1 kv.2) m').data.vars
        = odGet k m'.data.vars
      rw [foldSetTags_vars]
    rw [hmv]
    rw [foldSetVars_var n.data.vars n.contextVarNames _ k hndv]
    rcases hkv : odGet k n.data.vars with _ | v
    · rw [hn1var k (odGet_eq_none_iff.mp hkv)]
      exact hkv.symm
    · exact hkv.symm
  refine ⟨_, hred, hvarval, ?_, ?_, ?_, ?_, ?_, ?_, ?_⟩
  · intro k
    have hmv : ∀ m' : Node,
        (k ∈ (n.data.tags.foldl (fun nn kv => nn.setTag kv.1 kv.2) m').varNames
          ↔ k ∈ m'.varNames) := by
      intro m'
      show k ∈ odKeys (n.data.tags.foldl (fun nn kv => nn.setTag kv.1 kv.2) m').data.vars
        ↔ k ∈ odKeys m'.data.vars
      rw [foldSetTags_vars]
    rw [hmv, foldSetVars_varNames]
    constructor
    · rintro (h | h)
      · exact h
      · exact hcv k h
    · exact Or.inl
  · intro k
    rw [show (n.data.tags.foldl (fun nn kv => nn.setTag kv.1 kv.2)
        (n.data.vars.foldl (fun nn kv => nn.setVar kv.1 kv.2
          (n.contextVarNames.contains kv.1))
          (cls.construct (PathHolder.mk fp (fsIsDir fp)) none))).contextVarNames
      = (n.data.vars.foldl (fun nn kv => nn.setVar kv.1 kv.2
          (n.contextVarNames.contains kv.1))
          (cls.construct (PathHolder.mk fp (fsIsDir fp)) none)).contextVarNames
      from foldSetTags_ctx _ _]
    rw [foldSetVars_ctx]
    rw [construct_ctx]
    simp only [List.not_mem_nil, false_or]
    constructor
    · rintro ⟨-, h⟩
      exact h
    · intro h
      exact ⟨hctx k h, h⟩
  · intro k
    have hmv : (n.data.vars.foldl (fun nn kv => nn.setVar kv.1 kv.2
        (n.contextVarNames.contains kv.1))
        (cls.construct (PathHolder.mk fp (fsIsDir fp)) none)).tag k
        = (cls.construct (PathHolder.mk fp (fsIsDir fp)) none).tag k := by
      show odGet k (n.data.vars.foldl (fun nn kv => nn.setVar kv.1 kv.2
        (n.contextVarNames.contains kv.1))
        (cls.construct (PathHolder.mk fp (fsIsDir fp)) none)).data.tags = _
      rw [foldSetVars_tags]
      rfl
    rw [foldSetTags_tag n.data.tags _ k hndt, hmv]
    rcases hkv : odGet k n.data.tags with _ | v
    · rw [hn1tag k (odGet_eq_none_iff.mp hkv)]
      exact hkv.symm
    · exact hkv.symm
  · intro k
    rw [foldSetTags_tagNames]
    have hmv : (k ∈ (n.data.vars.foldl (fun nn kv => nn.setVar kv.1 kv.2
        (n.contextVarNames.contains kv.1))
        (cls.construct (PathHolder.mk fp (fsIsDir fp)) none)).tagNames
        ↔ k ∈ (cls.construct (PathHolder.mk fp (fsIsDir fp)) none).tagNames) := by
      show k ∈ odKeys (n.data.vars.foldl (fun nn kv => nn.setVar kv.1 kv.2
        (n.contextVarNames.contains kv.1))
        (cls.construct (PathHolder.mk fp (fsIsDir fp)) none)).data.tags ↔ _
      rw [foldSetVars_tags]
      rfl
    rw [hmv]
    constructor
    · rintro (h | h)
      · exact h
      · exact hct k h
    · exact Or.inl
  · rw [hvarval "type"]
    exact ht
  · rw [show (n.data.tags.foldl (fun nn kv => nn.setTag kv.1 kv.2)
        (n.data.vars.foldl (fun nn kv => nn.setVar kv.1 kv.2
          (n.contextVarNames.contains kv.1))
          (cls.construct (PathHolder.mk fp (fsIsDir fp)) none))).data.hasParent
      = (n.data.vars.foldl (fun nn kv => nn.setVar kv.1 kv.2
          (n.contextVarNames.contains kv.1))
          (cls.construct (PathHolder.mk fp (fsIsDir fp)) none)).data.hasParent
      from foldSetTags_hasParent _ _]
    rw [foldSetVars_hasParent]
    exact construct_hasParent cls (PathHolder.mk fp (fsIsDir fp)) none
  · rw [foldSetTags_children, foldSetVars_children]
    exact construct_children cls (PathHolder.mk fp (fsIsDir fp)) none

/-- C2 witness: the round trip applied at the concrete node. -/
theorem createFromJson_toJson_witness :
    (witRTNode.var "type" = some (JValue.str "genericFile") ∧
     odGet "genericFile" witRTReg = some witRTClass ∧
     witRTNode.var "filePath" = some (JValue.str "/a/b.txt") ∧
     witRTNode.varNames.Nodup ∧
     witRTNode.tagNames.Nodup ∧
     (∀ k ∈ witRTNode.contextVarNames, k ∈ witRTNode.varNames) ∧
     (∀ k ∈ ctorVarKeys witRTClass
        (PathHolder.mk "/a/b.txt" ((fun _ => false) "/a/b.txt")),
       k ∈ witRTNode.varNames) ∧
     (∀ k ∈ ctorTagKeys witRTClass
        (PathHolder.mk "/a/b.txt" ((fun _ => false) "/a/b.txt")),
       k ∈ witRTNode.tagNames)) ∧
    (∃ m, Path.createFromJson witRTReg (fun _ => false)
        (Path.toJson witRTNode) = some m ∧
      (∀ k, m.var k = witRTNode.var k) ∧
      (∀ k, k ∈ m.varNames ↔ k ∈ witRTNode.varNames) ∧
      (∀ k, k ∈ m.contextVarNames ↔ k ∈ witRTNode.contextVarNames) ∧
      (∀ k, m.tag k = witRTNode.tag k) ∧
      (∀ k, k ∈ m.tagNames ↔ k ∈ witRTNode.tagNames) ∧
      m.var "type" = some (JValue.str "genericFile") ∧
      m.data.hasParent = false ∧
      m.children = []) :=
  ⟨⟨by decide, rfl, by decide, by decide, by decide, by decide, by decide,
    by decide⟩,
   createFromJson_toJson_roundtrip witRTReg (fun _ => false) witRTNode
     "genericFile" witRTClass "/a/b.txt" (by decide) rfl (by decide)
     (by decide) (by decide) (by decide) (by decide) (by decide)⟩

end Centipede
